import Mathlib

/-!
# goadb: message codec, handshake, challenge signer and public-key encoder

A shallow embedding of `pkg/adb/Message.go`, `pkg/adb/Medium.go` and
`pkg/adb/Client.go`.

Conventions of the embedding:
* a byte is a `Nat` below `256`, a `uint32` is a `Nat` below `2 ^ 32`; conversions that
  truncate in Go are written with an explicit `%`;
* a Go `error` is a value of `Error`; `nil` is `none`;
* the `Medium` interface is embedded as a scripted transport: the outcomes of the
  successive `Read`, `Write`, `SetReadDeadline` and `SetWriteDeadline` calls are listed in
  advance, and every call made on the transport is appended to a trace;
* a Go panic is `none` in an `Option`.
-/

namespace adb

/-! ## Errors -/

/-- Go `error` values. `errorString` is what `errors.New` builds, `wrapError` what
`fmt.Errorf` builds around one `%w` operand (the message kept is the text before the
cause), the remaining constructors are the sentinel errors of package `io`. -/
inductive Error where
  | errorString (s : String) : Error
  | wrapError (msg : String) (err : Error) : Error
  | EOF : Error
  | ErrUnexpectedEOF : Error
  | ErrShortBuffer : Error
  | ErrNoProgress : Error
  deriving DecidableEq, Repr

/-- The `Unwrap` method: the wrapped cause of an error, when it has one. -/
def Error.Unwrap : Error → Option Error
  | .wrapError _ err => some err
  | _ => none

/-- The cause chain of an error, outermost first (what `errors.Is` walks). -/
def Error.chain : Error → List Error
  | .wrapError msg err => .wrapError msg err :: err.chain
  | e => [e]

/-! ## The transport (`Medium` interface) -/

/-- One scripted outcome of `Read`: the bytes that become available and the error reported
along with the last of them. -/
structure ReadEvent where
  data : List Nat
  err : Option Error
  deriving DecidableEq, Repr

/-- One scripted outcome of `Write`: the transport leaves the last `short` bytes of the
slice unwritten (`0`: it takes the whole slice) and reports `err`. -/
structure WriteEvent where
  short : Nat
  err : Option Error
  deriving DecidableEq, Repr

/-- A call made on the transport, with what it returned. -/
inductive Op where
  | Read (len : Nat) (got : List Nat) (err : Option Error) : Op
  | Write (b : List Nat) (n : Nat) (err : Option Error) : Op
  | SetReadDeadline (t : Int) (err : Option Error) : Op
  | SetWriteDeadline (t : Int) (err : Option Error) : Op
  | Close (err : Option Error) : Op
  deriving DecidableEq, Repr

/-- A scripted transport. `reads` and `writes` are the outcomes of the calls still to come
(`Read` on an exhausted script reports `io.EOF`, `Write` on an exhausted script takes
everything), `readDeadlines` and `writeDeadlines` the outcomes of the deadline calls
(exhausted: success), `trace` the calls made so far, oldest first. -/
structure Medium where
  reads : List ReadEvent
  writes : List WriteEvent
  readDeadlines : List (Option Error)
  writeDeadlines : List (Option Error)
  trace : List Op
  deriving DecidableEq, Repr

/-- The method `Read(b)` for a buffer of `len` bytes: returns the bytes stored at the
front of `b` (their number is Go's `n`) and the error. -/
def Medium.Read (m : Medium) (len : Nat) : (List Nat × Option Error) × Medium :=
  match m.reads with
  | [] => (([], some Error.EOF),
      { m with trace := m.trace ++ [Op.Read len [] (some Error.EOF)] })
  | ev :: rest =>
    if ev.data.length ≤ len then
      ((ev.data, ev.err),
        { m with reads := rest, trace := m.trace ++ [Op.Read len ev.data ev.err] })
    else
      ((ev.data.take len, none),
        { m with reads := { ev with data := ev.data.drop len } :: rest,
                 trace := m.trace ++ [Op.Read len (ev.data.take len) none] })

/-- The method `Write(b)`: returns Go's `(n, err)`. -/
def Medium.Write (m : Medium) (b : List Nat) : (Nat × Option Error) × Medium :=
  match m.writes with
  | [] => ((b.length, none), { m with trace := m.trace ++ [Op.Write b b.length none] })
  | ev :: rest =>
    ((b.length - ev.short, ev.err),
      { m with writes := rest, trace := m.trace ++ [Op.Write b (b.length - ev.short) ev.err] })

/-- The method `SetReadDeadline(t)`. -/
def Medium.SetReadDeadline (m : Medium) (t : Int) : Option Error × Medium :=
  match m.readDeadlines with
  | [] => (none, { m with trace := m.trace ++ [Op.SetReadDeadline t none] })
  | e :: rest =>
    (e, { m with readDeadlines := rest, trace := m.trace ++ [Op.SetReadDeadline t e] })

/-- The method `SetWriteDeadline(t)`. -/
def Medium.SetWriteDeadline (m : Medium) (t : Int) : Option Error × Medium :=
  match m.writeDeadlines with
  | [] => (none, { m with trace := m.trace ++ [Op.SetWriteDeadline t none] })
  | e :: rest =>
    (e, { m with writeDeadlines := rest, trace := m.trace ++ [Op.SetWriteDeadline t e] })

/-- The byte slices handed to `Write`, in call order. -/
def writesOf : List Op → List (List Nat)
  | [] => []
  | Op.Write b _ _ :: ops => b :: writesOf ops
  | _ :: ops => writesOf ops

/-- The bytes the transport took: for each `Write`, the first `n` bytes of its slice. -/
def acceptedOf : List Op → List Nat
  | [] => []
  | Op.Write b n _ :: ops => b.take n ++ acceptedOf ops
  | _ :: ops => acceptedOf ops

/-- The number of `Read` calls in a trace. -/
def readCount : List Op → Nat
  | [] => 0
  | Op.Read _ _ _ :: ops => readCount ops + 1
  | _ :: ops => readCount ops

/-- The bytes delivered by the `Read` calls of a trace. -/
def deliveredOf : List Op → List Nat
  | [] => []
  | Op.Read _ got _ :: ops => got ++ deliveredOf ops
  | _ :: ops => deliveredOf ops

/-- The bytes a read script still holds. -/
def pending : List ReadEvent → List Nat
  | [] => []
  | ev :: rest => ev.data ++ pending rest

/-- Loop of `io.ReadAtLeast(r, buf, min)` with `len(buf) = min`:
`for n < min && err == nil { nn, err = r.Read(buf[n:]); n += nn }`.
`got` is `buf[:n]`. Every iteration that does not end the loop removes one event of the
read script, so `m.reads.length + 1` iterations always suffice; the fuel-exhausted case
reports `io.ErrNoProgress`. -/
def ReadAtLeastLoop : Nat → Medium → Nat → List Nat → (List Nat × Option Error) × Medium
  | 0, m, _, got => ((got, some Error.ErrNoProgress), m)
  | fuel + 1, m, min, got =>
    if got.length < min then
      match m.Read (min - got.length) with
      | ((bs, none), m') => ReadAtLeastLoop fuel m' min (got ++ bs)
      | ((bs, some e), m') => ((got ++ bs, some e), m')
    else ((got, none), m)

/-- `io.ReadAtLeast(medium, buf, min)` for a buffer of exactly `min` bytes: returns
`buf[:n]` and the error, which is dropped when `n >= min` and turned into
`io.ErrUnexpectedEOF` when it is `io.EOF` after a partial read. -/
def ReadAtLeast (m : Medium) (min : Nat) : (List Nat × Option Error) × Medium :=
  match ReadAtLeastLoop (m.reads.length + 1) m min [] with
  | ((got, err), m') =>
    if min ≤ got.length then ((got, none), m')
    else if 0 < got.length ∧ err = some Error.EOF then ((got, some Error.ErrUnexpectedEOF), m')
    else ((got, err), m')

/-! ## Little-endian words and CRC-32 -/

/-- `binary.LittleEndian.PutUint32(b, v)`: the four bytes stored in `b[0..3]`. -/
def PutUint32 (v : Nat) : List Nat :=
  [v % 256, (v >>> 8) % 256, (v >>> 16) % 256, (v >>> 24) % 256]

/-- `binary.LittleEndian.Uint32(b)`:
`uint32(b[0]) | uint32(b[1])<<8 | uint32(b[2])<<16 | uint32(b[3])<<24`. -/
def Uint32 (b : List Nat) : Nat :=
  b.getD 0 0 ||| (b.getD 1 0 <<< 8) ||| (b.getD 2 0 <<< 16) ||| (b.getD 3 0 <<< 24)

/-- Stores `bs` into `buf` from offset `off` on (a slice assignment `buf[off:]`). -/
def storeAt (buf : List Nat) (off : Nat) (bs : List Nat) : List Nat :=
  buf.take off ++ bs ++ buf.drop (off + bs.length)

/-- One bit step of the reflected CRC-32 with polynomial `0xEDB88320`. -/
def crcBit (crc : Nat) : Nat :=
  if crc % 2 = 1 then (crc >>> 1) ^^^ 0xEDB88320 else crc >>> 1

/-- Folding one byte into the CRC register. -/
def crcByte (crc b : Nat) : Nat :=
  crcBit (crcBit (crcBit (crcBit (crcBit (crcBit (crcBit (crcBit (crc ^^^ b))))))))

/-- `crc32.ChecksumIEEE(data)`. -/
def ChecksumIEEE (data : List Nat) : Nat :=
  (data.foldl crcByte 0xFFFFFFFF) ^^^ 0xFFFFFFFF

/-! ## Messages (`Message.go`) -/

def MessageCommand_Auth : Nat := 0x48545541
def MessageCommand_Close : Nat := 0x45534C43
def MessageCommand_Connect : Nat := 0x4E584E43
def MessageCommand_Okay : Nat := 0x59414B4F
def MessageCommand_Open : Nat := 0x4E45504F
def MessageCommand_StartTLS : Nat := 0x534C5453
def MessageCommand_Sync : Nat := 0x434E5953
def MessageCommand_Write : Nat := 0x45545257

/-- The struct `Message`. -/
structure Message where
  Command : Nat
  Arg1 : Nat
  Arg2 : Nat
  Data : List Nat
  deriving DecidableEq, Repr

/-- The fields of a `Message` are in the range of their Go types. -/
def Message.WF (m : Message) : Prop :=
  m.Command < 2 ^ 32 ∧ m.Arg1 < 2 ^ 32 ∧ m.Arg2 < 2 ^ 32 ∧ ∀ b ∈ m.Data, b < 256

/-- `NewMessage_Connect`; the identity string is given by its bytes. -/
def NewMessage_Connect (systemIdentityString : List Nat) : Message :=
  { Command := MessageCommand_Connect, Arg1 := 0x01000000, Arg2 := 0x1000,
    Data := systemIdentityString }

/-- `NewMessage_Auth_Signature`. -/
def NewMessage_Auth_Signature (signature : List Nat) : Message :=
  { Command := MessageCommand_Auth, Arg1 := 2, Arg2 := 0, Data := signature }

/-- `NewMessage_Auth_PublicKey`. -/
def NewMessage_Auth_PublicKey (publicKey : List Nat) : Message :=
  { Command := MessageCommand_Auth, Arg1 := 3, Arg2 := 0, Data := publicKey }

/-! ## The codec (`Medium.go`) -/

/-- The 24-byte header `WriteMessage` fills in, one `PutUint32` after the other. -/
def messageHeader (msg : Message) : List Nat :=
  let header := List.replicate 24 0
  let header := storeAt header 0 (PutUint32 msg.Command)
  let header := storeAt header 4 (PutUint32 msg.Arg1)
  let header := storeAt header 8 (PutUint32 msg.Arg2)
  let header := storeAt header 12 (PutUint32 (msg.Data.length % 2 ^ 32))
  let header := storeAt header 16 (PutUint32 (ChecksumIEEE msg.Data))
  storeAt header 20 (PutUint32 (msg.Command ^^^ 0xFFFFFFFF))

/-- `WriteMessage(medium, msg)`. -/
def WriteMessage (medium : Medium) (msg : Message) : Option Error × Medium :=
  let header := messageHeader msg
  match medium.Write header with
  | ((_, some err), m1) =>
    (some (Error.wrapError "Unable to write message header (24 bytes): " err), m1)
  | ((_, none), m1) =>
    match m1.Write msg.Data with
    | ((_, some err), m2) =>
      (some (Error.wrapError
        ("Unable to write message body (" ++ toString msg.Data.length ++ " bytes): ") err), m2)
    | ((_, none), m2) => (none, m2)

/-- `ReadMessage(medium)`: the message (partly filled in on failure) and the error. -/
def ReadMessage (medium : Medium) : (Message × Option Error) × Medium :=
  match ReadAtLeast medium 24 with
  | ((_, some err), m1) =>
    (({ Command := 0, Arg1 := 0, Arg2 := 0, Data := [] },
      some (Error.wrapError "Unable to read message header (24 bytes): " err)), m1)
  | ((header, none), m1) =>
    let Command := Uint32 (header.drop 0)
    let Arg1 := Uint32 (header.drop 4)
    let Arg2 := Uint32 (header.drop 8)
    let length := Uint32 (header.drop 12)
    match ReadAtLeast m1 length with
    | ((got, some err), m2) =>
      (({ Command := Command, Arg1 := Arg1, Arg2 := Arg2,
          Data := got ++ List.replicate (length - got.length) 0 },
        some (Error.wrapError
          ("Unable to read message body (" ++ toString length ++ " bytes): ") err)), m2)
    | ((got, none), m2) =>
      (({ Command := Command, Arg1 := Arg1, Arg2 := Arg2, Data := got }, none), m2)

/-- `WriteMessageWithTimeout(medium, msg, timeout)`; `now` is the value of `time.Now()`. -/
def WriteMessageWithTimeout (medium : Medium) (msg : Message) (timeout : Int) (now : Int) :
    Option Error × Medium :=
  if timeout > 0 then
    match medium.SetWriteDeadline (now + timeout) with
    | (some err, m1) => (some (Error.wrapError "Unable to set sending deadline: " err), m1)
    | (none, m1) => WriteMessage m1 msg
  else WriteMessage medium msg

/-- `ReadMessageWithTimeout(medium, timeout)`; `now` is the value of `time.Now()`. -/
def ReadMessageWithTimeout (medium : Medium) (timeout : Int) (now : Int) :
    (Message × Option Error) × Medium :=
  if timeout > 0 then
    match medium.SetReadDeadline (now + timeout) with
    | (some err, m1) =>
      (({ Command := 0, Arg1 := 0, Arg2 := 0, Data := [] },
        some (Error.wrapError "Unable to set receival deadline: " err)), m1)
    | (none, m1) => ReadMessage m1
  else ReadMessage medium

/-! ## Big integers, base64 and the RSA key capability (library operations) -/

/-- Loop of the extended Euclidean algorithm on remainders `r0`, `r1` with the
coefficients `s0`, `s1` of the first operand: returns the last non-zero remainder and its
coefficient. -/
def xgcdLoop : Nat → Nat → Int → Nat → Int → Nat × Int
  | 0, r0, s0, _, _ => (r0, s0)
  | fuel + 1, r0, s0, r1, s1 =>
    if r1 = 0 then (r0, s0)
    else xgcdLoop fuel r1 s1 (r0 % r1) (s0 - ((r0 / r1 : Nat) : Int) * s1)

/-- `z.ModInverse(g, n)` of `math/big` for `g, n >= 0`: the inverse of `g` in the ring of
integers modulo `n`, in the range `0 <= z < n`; when `g` and `n` are not relatively prime
`z` is left unchanged. -/
def ModInverse (z g n : Nat) : Nat :=
  if Nat.gcd g n = 1 then ((xgcdLoop (n + 1) g 1 n 0).2 % (n : Int)).toNat else z

/-- The zero-extended big-endian encoding of `x` on `len` bytes (the low `len` bytes). -/
def bigEndianBytes : Nat → Nat → List Nat
  | 0, _ => []
  | len + 1, x => bigEndianBytes len (x / 256) ++ [x % 256]

/-- `x.FillBytes(buf)` of `math/big` for a buffer of `len` bytes: panics when `x` does not
fit. -/
def FillBytes (x : Nat) (len : Nat) : Option (List Nat) :=
  if x < 256 ^ len then some (bigEndianBytes len x) else none

/-- The ASCII code of the `i`-th character of the standard base64 alphabet. -/
def encodeStd (i : Nat) : Nat :=
  if i < 26 then 65 + i
  else if i < 52 then 97 + (i - 26)
  else if i < 62 then 48 + (i - 52)
  else if i = 62 then 43 else 47

/-- `base64.StdEncoding.EncodeToString(src)`, as the ASCII codes of the result. -/
def EncodeToString : List Nat → List Nat
  | [] => []
  | [a] =>
    let val := a <<< 16
    [encodeStd (val >>> 18 &&& 0x3F), encodeStd (val >>> 12 &&& 0x3F), 61, 61]
  | [a, b] =>
    let val := a <<< 16 ||| b <<< 8
    [encodeStd (val >>> 18 &&& 0x3F), encodeStd (val >>> 12 &&& 0x3F),
     encodeStd (val >>> 6 &&& 0x3F), 61]
  | a :: b :: c :: rest =>
    let val := a <<< 16 ||| b <<< 8 ||| c
    encodeStd (val >>> 18 &&& 0x3F) :: encodeStd (val >>> 12 &&& 0x3F) ::
      encodeStd (val >>> 6 &&& 0x3F) :: encodeStd (val &&& 0x3F) :: EncodeToString rest

/-- The digest identifiers of package `crypto` that matter here. -/
inductive Hash where
  | SHA1 : Hash
  | SHA256 : Hash
  deriving DecidableEq, Repr

/-- The struct `rsa.PublicKey`: modulus and public exponent. -/
structure RsaPublicKey where
  N : Nat
  E : Int
  deriving DecidableEq, Repr

/-- The capability `*rsa.PrivateKey`: its public half, and the library operation
`rsa.SignPKCS1v15(rand.Reader, key, hash, hashed)` for this key, which returns a signature
and an error. -/
structure RsaPrivateKey where
  PublicKey : RsaPublicKey
  SignPKCS1v15 : Hash → List Nat → List Nat × Option Error

/-! ## The client (`Client.go`) -/

/-- Loop of `bigToLittleEndian`:
`for i, j := 0, len(s)-1; i < j; i, j = i+1, j-1 { s[i], s[j] = s[j], s[i] }`.
The loop runs `len(s) / 2` times, so `len(s)` iterations of fuel suffice. -/
def bigToLittleEndianLoop : Nat → List Nat → Nat → Nat → List Nat
  | 0, s, _, _ => s
  | fuel + 1, s, i, j =>
    if i < j then
      bigToLittleEndianLoop fuel ((s.set i (s.getD j 0)).set j (s.getD i 0)) (i + 1) (j - 1)
    else s

/-- `bigToLittleEndian(s)`: the slice after the in-place swaps. -/
def bigToLittleEndian (s : List Nat) : List Nat :=
  bigToLittleEndianLoop s.length s 0 (s.length - 1)

/-- The value of `n0inv` in `encodePublicKey` after its `Mod`, `ModInverse` and `Sub`
steps (the comment there: "Precomputed montgomery parameter: -1 / n[0] mod 2^32"). -/
def n0inv (N : Nat) : Nat :=
  let r32 := 0x100000000
  let n0inv := N % r32
  let n0inv := ModInverse n0inv n0inv r32
  r32 - n0inv

/-- The array `encoded` that `encodePublicKey` fills in before the base64 step; `none`
when one of the `FillBytes` calls or the `Mod` by the modulus panics. -/
def encodePublicKeyRecord (publicKey : RsaPublicKey) : Option (List Nat) :=
  let ANDROID_PUBKEY_MODULUS_SIZE := 0x100
  let encoded := List.replicate
    (4 + 4 + ANDROID_PUBKEY_MODULUS_SIZE + ANDROID_PUBKEY_MODULUS_SIZE + 4) 0
  let encoded := storeAt encoded 0 (PutUint32 (ANDROID_PUBKEY_MODULUS_SIZE / 4))
  match FillBytes (n0inv publicKey.N) 4 with
  | none => none
  | some b =>
    let encoded := storeAt encoded 4 (bigToLittleEndian b)
    match FillBytes publicKey.N ANDROID_PUBKEY_MODULUS_SIZE with
    | none => none
    | some b =>
      let encoded := storeAt encoded 8 (bigToLittleEndian b)
      let rr := 2 ^ (ANDROID_PUBKEY_MODULUS_SIZE * 8)
      let rr := rr * rr
      if publicKey.N = 0 then none
      else
        let rr := rr % publicKey.N
        match FillBytes rr ANDROID_PUBKEY_MODULUS_SIZE with
        | none => none
        | some b =>
          let encoded := storeAt encoded (8 + ANDROID_PUBKEY_MODULUS_SIZE) (bigToLittleEndian b)
          some (storeAt encoded (8 + ANDROID_PUBKEY_MODULUS_SIZE + ANDROID_PUBKEY_MODULUS_SIZE)
            (PutUint32 ((publicKey.E % 2 ^ 32).toNat)))

/-- `encodePublicKey(publicKey)`: base64 of the record followed by a NUL byte. -/
def encodePublicKey (publicKey : RsaPublicKey) : Option (List Nat) :=
  match encodePublicKeyRecord publicKey with
  | none => none
  | some encoded => some (EncodeToString encoded ++ [0])

/-- `sign(data, key)`: Go's `(signature, err)` with `nil` as `[]`, paired with the list of
calls made to the library signing operation (digest identifier and digest). -/
def sign (data : List Nat) (key : RsaPrivateKey) :
    (List Nat × Option Error) × List (Hash × List Nat) :=
  if data.length ≠ 20 then
    (([], some (Error.errorString
      ("Authentication challenge must be 20 bytes long, got " ++ toString data.length ++
        " bytes"))), [])
  else
    match key.SignPKCS1v15 Hash.SHA1 data with
    | (_, some err) =>
      (([], some (Error.wrapError "Signing authentication challenge failed: " err)),
        [(Hash.SHA1, data)])
    | (signature, none) => ((signature, none), [(Hash.SHA1, data)])

/-- The struct `Client`; a `nil` medium is `none`. -/
structure Client where
  medium : Option Medium
  privateKey : RsaPrivateKey

/-- A message-level operation of `Handshake` on the transport, with the error it
returned: a call of `WriteMessage` with the message handed over, or a call of `ReadMessage`
with the message it returned. -/
inductive MessageOp where
  | write (msg : Message) (err : Option Error) : MessageOp
  | read (msg : Message) (err : Option Error) : MessageOp
  deriving DecidableEq, Repr

/-- What a call of `Handshake` leaves behind: `ret` is Go's `([]byte, error)` with `nil`
as `[]`, or `none` when the call panicked; `medium` is the transport afterwards; `signed`
lists the calls made to the library signing operation; `ops` lists the calls of
`WriteMessage` and `ReadMessage` made, in order. -/
structure HandshakeResult where
  ret : Option (List Nat × Option Error)
  medium : Option Medium
  signed : List (Hash × List Nat)
  ops : List MessageOp

/-- `(c *Client) Handshake(systemIdentityString)`. -/
def Client.Handshake (c : Client) (systemIdentityString : List Nat) : HandshakeResult :=
  match c.medium with
  | none => ⟨some ([], some (Error.errorString "Medium is not initialized")), none, [], []⟩
  | some medium =>
  let connect := NewMessage_Connect systemIdentityString
  match WriteMessage medium connect with
  | (some err, m1) =>
    ⟨some ([], some (Error.wrapError "Unable to send CONNECT message: " err)), some m1, [],
      [.write connect (some err)]⟩
  | (none, m1) =>
  match ReadMessage m1 with
  | ((msg1, some err), m2) =>
    ⟨some ([], some (Error.wrapError "Error while receiving response to CONNECT: " err)),
      some m2, [], [.write connect none, .read msg1 (some err)]⟩
  | ((msg1, none), m2) =>
  if msg1.Command ≠ MessageCommand_Auth then
    ⟨some ([], some (Error.errorString "Expected AUTH response to CONNECT request")),
      some m2, [], [.write connect none, .read msg1 none]⟩
  else
  match sign msg1.Data c.privateKey with
  | ((_, some err), calls) =>
    ⟨some ([], some (Error.wrapError "Unable to sign challenge with own private key: " err)),
      some m2, calls, [.write connect none, .read msg1 none]⟩
  | ((signature, none), calls) =>
  let auth2 := NewMessage_Auth_Signature signature
  match WriteMessage m2 auth2 with
  | (some err, m3) =>
    ⟨some ([], some (Error.errorString
      "Unable to send AUTH+signature request: %!w(MISSING)")), some m3, calls,
      [.write connect none, .read msg1 none, .write auth2 (some err)]⟩
  | (none, m3) =>
  match ReadMessage m3 with
  | ((msg2, some err), m4) =>
    ⟨some ([], some (Error.wrapError
      "Error while receiving response to AUTH+signature request: " err)), some m4, calls,
      [.write connect none, .read msg1 none, .write auth2 none, .read msg2 (some err)]⟩
  | ((msg2, none), m4) =>
  if msg2.Command = MessageCommand_Connect then
    ⟨some (msg2.Data, none), some m4, calls,
      [.write connect none, .read msg1 none, .write auth2 none, .read msg2 none]⟩
  else if msg2.Command ≠ MessageCommand_Auth then
    ⟨some ([], some (Error.errorString
      "Expected CONNECT or AUTH response to AUTH+signature request: %!w(<nil>)")),
      some m4, calls,
      [.write connect none, .read msg1 none, .write auth2 none, .read msg2 none]⟩
  else
  match encodePublicKey c.privateKey.PublicKey with
  | none => ⟨none, some m4, calls,
      [.write connect none, .read msg1 none, .write auth2 none, .read msg2 none]⟩
  | some publicKey =>
  let auth3 := NewMessage_Auth_PublicKey publicKey
  match WriteMessage m4 auth3 with
  | (some err, m5) =>
    ⟨some ([], some (Error.wrapError "Unable to send AUTH+publickey request: " err)),
      some m5, calls,
      [.write connect none, .read msg1 none, .write auth2 none, .read msg2 none,
       .write auth3 (some err)]⟩
  | (none, m5) =>
  match ReadMessage m5 with
  | ((msg3, some err), m6) =>
    ⟨some ([], some (Error.wrapError
      "Error while receiving response to AUTH+publickey request: " err)), some m6, calls,
      [.write connect none, .read msg1 none, .write auth2 none, .read msg2 none,
       .write auth3 none, .read msg3 (some err)]⟩
  | ((msg3, none), m6) =>
  if msg3.Command = MessageCommand_Connect then
    ⟨some (msg3.Data, none), some m6, calls,
      [.write connect none, .read msg1 none, .write auth2 none, .read msg2 none,
       .write auth3 none, .read msg3 none]⟩
  else
    ⟨some ([], some (Error.errorString "Device did not accept our key")), some m6, calls,
      [.write connect none, .read msg1 none, .write auth2 none, .read msg2 none,
       .write auth3 none, .read msg3 none]⟩

/-! ## Sample inputs -/

/-- A stream of 27 bytes in two chunks: a header announcing a 2-byte payload, the payload
`[9, 8]`, and one more byte. -/
def sampleStream : Medium :=
  { reads := [⟨[1, 0, 0, 0, 0], none⟩,
      ⟨[0, 0, 0, 0, 0, 0, 0, 2, 0, 0, 0, 0, 0, 0, 0, 0, 0, 0, 0, 9, 8, 7], none⟩],
    writes := [], readDeadlines := [], writeDeadlines := [], trace := [] }

/-- The bytes of one message on the wire, delivered as a single chunk. -/
def wireChunk (msg : Message) : ReadEvent :=
  { data := messageHeader msg ++ msg.Data, err := none }

/-- A key with modulus `3` and exponent `65537` whose signing operation
returns the digest reversed. -/
def sampleKey : RsaPrivateKey :=
  { PublicKey := { N := 3, E := 65537 },
    SignPKCS1v15 := fun _ hashed => (hashed.reverse, none) }

/-- A key whose signing operation always fails. -/
def failingKey : RsaPrivateKey :=
  { PublicKey := { N := 3, E := 65537 },
    SignPKCS1v15 := fun _ _ => ([], some (Error.errorString "crypto/rsa: message too long")) }

/-- A challenge of 20 bytes. -/
def sampleChallenge : List Nat :=
  [1, 2, 3, 4, 5, 6, 7, 8, 9, 10, 11, 12, 13, 14, 15, 16, 17, 18, 19, 20]

/-- The bytes of "device::banana". -/
def sampleBanner : List Nat :=
  [100, 101, 118, 105, 99, 101, 58, 58, 98, 97, 110, 97, 110, 97]

/-- The bytes of "host::". -/
def sampleIdentity : List Nat := [104, 111, 115, 116, 58, 58]

/-- A transport on which the peer sends the given messages, one chunk each, and every
write succeeds. -/
def peerSends (msgs : List Message) : Medium :=
  { reads := msgs.map wireChunk, writes := [], readDeadlines := [], writeDeadlines := [],
    trace := [] }

/-- Scenario A: the peer answers `AUTH(challenge)`, then `CONNECT(banner)`. -/
def scenarioA : Client :=
  { medium := some (peerSends [⟨MessageCommand_Auth, 1, 0, sampleChallenge⟩,
      ⟨MessageCommand_Connect, 0x01000000, 0x1000, sampleBanner⟩]),
    privateKey := sampleKey }

/-- Scenario B: the peer answers `AUTH(challenge)`, `AUTH(other bytes)`, then
`CONNECT(banner)`. -/
def scenarioB : Client :=
  { medium := some (peerSends [⟨MessageCommand_Auth, 1, 0, sampleChallenge⟩,
      ⟨MessageCommand_Auth, 1, 0, [9, 9, 9]⟩,
      ⟨MessageCommand_Connect, 0x01000000, 0x1000, sampleBanner⟩]),
    privateKey := sampleKey }

/-- Scenario C: the peer answers `AUTH(challenge)`, `AUTH(challenge)`, then `CLOSE`. -/
def scenarioC : Client :=
  { medium := some (peerSends [⟨MessageCommand_Auth, 1, 0, sampleChallenge⟩,
      ⟨MessageCommand_Auth, 1, 0, sampleChallenge⟩,
      ⟨MessageCommand_Close, 0, 0, []⟩]),
    privateKey := sampleKey }

/-- Scenario D: the peer answers `OPEN`. -/
def scenarioD : Client :=
  { medium := some (peerSends [⟨MessageCommand_Open, 0, 0, []⟩]),
    privateKey := sampleKey }

/-- The peer answers `AUTH(challenge)`, then `OKAY`. -/
def scenarioOkay : Client :=
  { medium := some (peerSends [⟨MessageCommand_Auth, 1, 0, sampleChallenge⟩,
      ⟨MessageCommand_Okay, 0, 0, []⟩]),
    privateKey := sampleKey }

/-- The message `OKAY(1, 2)` with payload `[7, 8, 9]`. -/
def sampleMessage : Message :=
  { Command := MessageCommand_Okay, Arg1 := 1, Arg2 := 2, Data := [7, 8, 9] }

/-- A transport whose first `Write` leaves the last byte unwritten and reports no error. -/
def shortWriter : Medium :=
  { reads := [], writes := [⟨1, none⟩], readDeadlines := [], writeDeadlines := [],
    trace := [] }

/-- A transport whose first `Write` reports "broken pipe". -/
def brokenWriter : Medium :=
  { reads := [], writes := [⟨24, some (Error.errorString "broken pipe")⟩],
    readDeadlines := [], writeDeadlines := [], trace := [] }

/-- A transport on which setting either deadline fails. -/
def noDeadlines : Medium :=
  { reads := [], writes := [], readDeadlines := [some (Error.errorString "not supported")],
    writeDeadlines := [some (Error.errorString "not supported")], trace := [] }

/-- A transport on which the peer sends `AUTH(challenge)`; its first two writes succeed
and its third write reports "broken pipe". -/
def brokenPipeMedium : Medium :=
  { reads := [wireChunk ⟨MessageCommand_Auth, 1, 0, sampleChallenge⟩],
    writes := [⟨0, none⟩, ⟨0, none⟩, ⟨24, some (Error.errorString "broken pipe")⟩],
    readDeadlines := [], writeDeadlines := [], trace := [] }

/-- The peer answers `AUTH(challenge)`; the two writes of the `CONNECT` message succeed and
the next write, the header of the `AUTH` message with the signature, reports
"broken pipe". -/
def scenarioBrokenPipe : Client :=
  { medium := some brokenPipeMedium, privateKey := sampleKey }

/-- The peer answers `CLOSE`. -/
def scenarioClose : Client :=
  { medium := some (peerSends [⟨MessageCommand_Close, 0, 0, []⟩]),
    privateKey := sampleKey }

/-! ## Specification-side notions -/

/-- The little-endian encoding of `x` on `n` bytes (its low `n` bytes, least significant
first): the wire format the specification names. -/
def littleEndianBytes : Nat → Nat → List Nat
  | 0, _ => []
  | n + 1, x => x % 256 :: littleEndianBytes n (x / 256)

/-- The value a list of bytes denotes when read least significant byte first. -/
def littleEndianValue : List Nat → Nat
  | [] => 0
  | b :: bs => b + 256 * littleEndianValue bs

/-- No event of a read script reports an error (the stream just delivers bytes and
ends). -/
def ErrorFree (reads : List ReadEvent) : Prop := ∀ ev ∈ reads, ev.err = none

/-- The ASCII codes of the characters of a tag. -/
def asciiBytes (tag : String) : List Nat := tag.toList.map Char.toNat

/-- The calls a trace holds that set a deadline. -/
def deadlineCalls : List Op → List Op
  | [] => []
  | Op.SetReadDeadline t e :: ops => Op.SetReadDeadline t e :: deadlineCalls ops
  | Op.SetWriteDeadline t e :: ops => Op.SetWriteDeadline t e :: deadlineCalls ops
  | _ :: ops => deadlineCalls ops

/-- The call is a `Write`. -/
def Op.isWrite : Op → Bool
  | Op.Write _ _ _ => true
  | _ => false

/-- The call is a `Read`. -/
def Op.isRead : Op → Bool
  | Op.Read _ _ _ => true
  | _ => false

/-- The error a message-level operation returned. -/
def MessageOp.err : MessageOp → Option Error
  | .write _ err => err
  | .read _ err => err

/-- Whether a message-level operation is a write (`true`) or a read (`false`). -/
def MessageOp.isWrite : MessageOp → Bool
  | .write _ _ => true
  | .read _ _ => false

/-- What `ReadMessage` returns on a finite stream `s` of bytes, as a function of the
bytes before offset 16 and from offset 24 on: the decoded header words and the payload,
or the short-read error. -/
def decodeStream (s : List Nat) : Message × Option Error :=
  if s.length < 24 then
    ({ Command := 0, Arg1 := 0, Arg2 := 0, Data := [] },
      some (Error.wrapError "Unable to read message header (24 bytes): "
        (if s = [] then Error.EOF else Error.ErrUnexpectedEOF)))
  else
    let length := Uint32 ((s.take 16).drop 12)
    if 24 + length ≤ s.length then
      ({ Command := Uint32 (s.take 16), Arg1 := Uint32 ((s.take 16).drop 4),
         Arg2 := Uint32 ((s.take 16).drop 8), Data := (s.drop 24).take length }, none)
    else
      ({ Command := Uint32 (s.take 16), Arg1 := Uint32 ((s.take 16).drop 4),
         Arg2 := Uint32 ((s.take 16).drop 8),
         Data := s.drop 24 ++ List.replicate (length - (s.drop 24).length) 0 },
        some (Error.wrapError
          ("Unable to read message body (" ++ toString length ++ " bytes): ")
          (if s.drop 24 = [] then Error.EOF else Error.ErrUnexpectedEOF)))

/-- Every operation of the list that is followed by another one returned no error: a
failed operation can only be the last. -/
def failuresAreLast : List MessageOp → Prop
  | [] => True
  | [_] => True
  | op :: next :: rest => op.err = none ∧ failuresAreLast (next :: rest)

/-- The transport after the logged operations are performed on it one after the other,
each call returning what the log says: `WriteMessage` for a `write` entry, `ReadMessage`
for a `read` entry. `none` when a call returns something else than logged. -/
def replay : Medium → List MessageOp → Option Medium
  | m, [] => some m
  | m, MessageOp.write msg err :: rest =>
    if (WriteMessage m msg).1 = err then replay (WriteMessage m msg).2 rest else none
  | m, MessageOp.read msg err :: rest =>
    if (ReadMessage m).1 = (msg, err) then replay (ReadMessage m).2 rest else none

/-- The calls on the transport that one message-level operation consists of: for a write
of `msg`, one `Write` of its header, or a `Write` of its header that reported no error
followed by one `Write` of its payload; for a read, one or more `Read` calls. -/
def MessageOp.performs : MessageOp → List Op → Prop
  | MessageOp.write msg _, seg =>
    (∃ n e, seg = [Op.Write (messageHeader msg) n e]) ∨
    (∃ n1 n2 e, seg = [Op.Write (messageHeader msg) n1 none, Op.Write msg.Data n2 e])
  | MessageOp.read _ _, seg => seg ≠ [] ∧ ∀ op ∈ seg, op.isRead = true

/-! ## Lemmas: little-endian words -/

theorem PutUint32_eq (v : Nat) : PutUint32 v = littleEndianBytes 4 v := by
  simp only [PutUint32, littleEndianBytes, Nat.shiftRight_eq_div_pow]
  have h1 : v / 256 / 256 = v / 2 ^ 16 := by rw [Nat.div_div_eq_div_mul]; norm_num
  have h2 : v / 256 / 256 / 256 = v / 2 ^ 24 := by
    rw [Nat.div_div_eq_div_mul, Nat.div_div_eq_div_mul]; norm_num
  rw [h2, h1]

theorem littleEndianBytes_length (n x : Nat) : (littleEndianBytes n x).length = n := by
  induction n generalizing x with
  | zero => rfl
  | succ n ih => simp [littleEndianBytes, ih]

theorem littleEndianBytes_lt (n x : Nat) : ∀ b ∈ littleEndianBytes n x, b < 256 := by
  induction n generalizing x with
  | zero => simp [littleEndianBytes]
  | succ n ih =>
    intro b hb
    simp only [littleEndianBytes, List.mem_cons] at hb
    rcases hb with rfl | hb
    · exact Nat.mod_lt _ (by norm_num)
    · exact ih _ b hb

theorem littleEndianBytes_mod (n x : Nat) :
    littleEndianBytes n (x % 256 ^ n) = littleEndianBytes n x := by
  induction n generalizing x with
  | zero => rfl
  | succ n ih =>
    simp only [littleEndianBytes]
    have h1 : x % 256 ^ (n + 1) % 256 = x % 256 := by
      rw [pow_succ']
      exact Nat.mod_mul_right_mod x 256 (256 ^ n)
    have h2 : x % 256 ^ (n + 1) / 256 = (x / 256) % 256 ^ n := by
      rw [pow_succ', Nat.mod_mul_right_div_self]
    rw [h1, h2, ih]

theorem littleEndianValue_bytes (n x : Nat) :
    littleEndianValue (littleEndianBytes n x) = x % 256 ^ n := by
  induction n generalizing x with
  | zero => simp [littleEndianBytes, littleEndianValue, Nat.mod_one]
  | succ n ih =>
    simp only [littleEndianBytes, littleEndianValue, ih]
    rw [pow_succ', Nat.mod_mul, Nat.add_comm]

theorem Uint32_eq (b0 b1 b2 b3 : Nat) (rest : List Nat)
    (h0 : b0 < 256) (h1 : b1 < 256) (h2 : b2 < 256) :
    Uint32 (b0 :: b1 :: b2 :: b3 :: rest) = littleEndianValue [b0, b1, b2, b3] := by
  simp only [Uint32, List.getD_cons_zero, List.getD_cons_succ, littleEndianValue,
    Nat.shiftLeft_eq]
  have e1 : b0 ||| b1 * 2 ^ 8 = 2 ^ 8 * b1 + b0 := by
    rw [Nat.lor_comm, Nat.mul_comm]
    exact (Nat.mul_add_lt_is_or (by simpa using h0) b1).symm
  have e2 : 2 ^ 8 * b1 + b0 ||| b2 * 2 ^ 16 = 2 ^ 16 * b2 + (2 ^ 8 * b1 + b0) := by
    rw [Nat.lor_comm, Nat.mul_comm]
    exact (Nat.mul_add_lt_is_or (by omega) b2).symm
  have e3 : 2 ^ 16 * b2 + (2 ^ 8 * b1 + b0) ||| b3 * 2 ^ 24
      = 2 ^ 24 * b3 + (2 ^ 16 * b2 + (2 ^ 8 * b1 + b0)) := by
    rw [Nat.lor_comm, Nat.mul_comm]
    exact (Nat.mul_add_lt_is_or (by omega) b3).symm
  rw [e1, e2, e3]
  omega

theorem Uint32_PutUint32 (v : Nat) (rest : List Nat) :
    Uint32 (PutUint32 v ++ rest) = v % 2 ^ 32 := by
  have h := littleEndianValue_bytes 4 v
  rw [PutUint32_eq]
  simp only [littleEndianBytes, List.cons_append, List.nil_append] at h ⊢
  rw [Uint32_eq _ _ _ _ _ (Nat.mod_lt _ (by norm_num)) (Nat.mod_lt _ (by norm_num))
    (Nat.mod_lt _ (by norm_num)), h]
  norm_num

/-! ## Lemmas: the read loop -/

theorem pending_append (xs ys : List ReadEvent) : pending (xs ++ ys) = pending xs ++ pending ys := by
  induction xs with
  | nil => rfl
  | cons ev xs ih => simp [pending, ih]

theorem ReadAtLeastLoop_done (fuel : Nat) (m : Medium) (min : Nat) (got : List Nat)
    (h : min ≤ got.length) : ReadAtLeastLoop (fuel + 1) m min got = ((got, none), m) := by
  simp only [ReadAtLeastLoop]
  rw [if_neg (by omega)]

theorem Medium.Read_nil (m : Medium) (k : Nat) (hm : m.reads = []) :
    (m.Read k).1 = ([], some Error.EOF) ∧ (m.Read k).2.reads = [] := by
  simp [Medium.Read, hm]

theorem Medium.Read_fit (m : Medium) (k : Nat) (ev : ReadEvent) (rest : List ReadEvent)
    (hm : m.reads = ev :: rest) (hfit : ev.data.length ≤ k) :
    (m.Read k).1 = (ev.data, ev.err) ∧ (m.Read k).2.reads = rest := by
  simp [Medium.Read, hm, hfit]

theorem Medium.Read_split (m : Medium) (k : Nat) (ev : ReadEvent) (rest : List ReadEvent)
    (hm : m.reads = ev :: rest) (hfit : ¬ ev.data.length ≤ k) :
    (m.Read k).1 = (ev.data.take k, none) ∧
    (m.Read k).2.reads = { ev with data := ev.data.drop k } :: rest := by
  simp [Medium.Read, hm, hfit]

/-- On an error-free script the read loop returns the next `min` bytes of the stream when
there are that many, and otherwise everything that is left together with `io.EOF`. -/
theorem ReadAtLeastLoop_spec (reads : List ReadEvent) :
    ∀ (fuel : Nat) (m : Medium) (min : Nat) (got : List Nat),
      m.reads = reads → ErrorFree reads → reads.length < fuel →
      (min ≤ got.length + (pending reads).length →
        (ReadAtLeastLoop fuel m min got).1 = (got ++ (pending reads).take (min - got.length), none) ∧
        pending (ReadAtLeastLoop fuel m min got).2.reads = (pending reads).drop (min - got.length) ∧
        ErrorFree (ReadAtLeastLoop fuel m min got).2.reads) ∧
      (got.length + (pending reads).length < min →
        (ReadAtLeastLoop fuel m min got).1 = (got ++ pending reads, some Error.EOF) ∧
        (ReadAtLeastLoop fuel m min got).2.reads = []) := by
  induction reads with
  | nil =>
    intro fuel m min got hm _ hf
    obtain ⟨f, rfl⟩ : ∃ f, fuel = f + 1 := ⟨fuel - 1, by omega⟩
    constructor
    · intro h
      simp only [pending, List.length_nil, Nat.add_zero] at h
      rw [ReadAtLeastLoop_done f m min got h]
      simp [hm, pending, ErrorFree]
    · intro h
      simp only [pending, List.length_nil, Nat.add_zero] at h
      obtain ⟨h1, h2⟩ := m.Read_nil (min - got.length) hm
      simp only [ReadAtLeastLoop, if_pos h]
      generalize m.Read (min - got.length) = r at h1 h2
      obtain ⟨⟨bs, e⟩, m'⟩ := r
      simp only [Prod.mk.injEq] at h1
      obtain ⟨rfl, rfl⟩ := h1
      simpa [pending] using h2
  | cons ev rest ih =>
    intro fuel m min got hm hclean hf
    obtain ⟨f, rfl⟩ : ∃ f, fuel = f + 1 := ⟨fuel - 1, by omega⟩
    have hev : ev.err = none := hclean ev (List.mem_cons_self _ _)
    have hrest : ErrorFree rest := fun e he => hclean e (List.mem_cons_of_mem _ he)
    simp only [List.length_cons] at hf
    by_cases hlt : got.length < min
    · by_cases hfit : ev.data.length ≤ min - got.length
      · obtain ⟨h1, h2⟩ := m.Read_fit (min - got.length) ev rest hm hfit
        simp only [ReadAtLeastLoop, if_pos hlt]
        generalize m.Read (min - got.length) = r at h1 h2
        obtain ⟨⟨bs, e⟩, m'⟩ := r
        simp only [Prod.mk.injEq] at h1
        obtain ⟨rfl, rfl⟩ := h1
        simp only at h2
        simp only [hev]
        have hI := ih f m' min (got ++ ev.data) h2 hrest (by omega)
        simp only [pending, List.length_append] at hI ⊢
        constructor
        · intro h
          obtain ⟨h1, h2, h3⟩ := hI.1 (by omega)
          refine ⟨?_, ?_, h3⟩
          · rw [h1, List.take_append_eq_append_take,
              List.take_of_length_le hfit, List.append_assoc, Nat.sub_add_eq]
          · rw [h2, List.drop_append_eq_append_drop, List.drop_of_length_le hfit,
              List.nil_append, Nat.sub_add_eq]
        · intro h
          obtain ⟨h1, h2⟩ := hI.2 (by omega)
          exact ⟨by rw [h1, List.append_assoc], h2⟩
      · obtain ⟨f', rfl⟩ : ∃ f', f = f' + 1 := ⟨f - 1, by omega⟩
        obtain ⟨h1, h2⟩ := m.Read_split (min - got.length) ev rest hm hfit
        rw [ReadAtLeastLoop]
        simp only [if_pos hlt]
        generalize m.Read (min - got.length) = r at h1 h2
        obtain ⟨⟨bs, e⟩, m'⟩ := r
        simp only [Prod.mk.injEq] at h1
        obtain ⟨rfl, rfl⟩ := h1
        simp only at h2 ⊢
        rw [ReadAtLeastLoop_done _ _ _ _
          (by simp only [List.length_append, List.length_take]; omega)]
        simp only [pending, List.length_append, h2]
        constructor
        · intro _
          refine ⟨?_, ?_, ?_⟩
          · rw [List.take_append_of_le_length (by omega)]
          · rw [List.drop_append_of_le_length (by omega)]
          · intro e he
            simp only [List.mem_cons] at he
            rcases he with rfl | he
            · exact hev
            · exact hrest e he
        · intro h
          omega
    · rw [ReadAtLeastLoop_done _ m min got (by omega)]
      constructor
      · intro _
        have h0 : min - got.length = 0 := by omega
        simp [h0, hm, hclean]
      · intro h
        omega

/-- Totality of the read loop: on every read script, error events included, the
`m.reads.length + 1` iterations `ReadAtLeast` allows are enough, since any larger number of
iterations gives the same result. -/
theorem ReadAtLeastLoop_fuel (fuel : Nat) :
    ∀ (n : Nat) (m : Medium) (min : Nat) (got : List Nat),
      m.reads.length < fuel → m.reads.length < n →
      ReadAtLeastLoop fuel m min got = ReadAtLeastLoop n m min got := by
  induction fuel with
  | zero => intro n m min got h; omega
  | succ fuel ih =>
    intro n m min got hf hn
    obtain ⟨n', rfl⟩ : ∃ n', n = n' + 1 := ⟨n - 1, by omega⟩
    by_cases hlt : got.length < min
    · simp only [ReadAtLeastLoop, if_pos hlt]
      cases hreads : m.reads with
      | nil =>
        obtain ⟨h1, _⟩ := m.Read_nil (min - got.length) hreads
        generalize m.Read (min - got.length) = r at h1
        obtain ⟨⟨bs, e⟩, m'⟩ := r
        simp only [Prod.mk.injEq] at h1
        obtain ⟨rfl, rfl⟩ := h1
        rfl
      | cons ev rest =>
        rw [hreads] at hf hn
        simp only [List.length_cons] at hf hn
        by_cases hfit : ev.data.length ≤ min - got.length
        · obtain ⟨h1, h2⟩ := m.Read_fit (min - got.length) ev rest hreads hfit
          generalize m.Read (min - got.length) = r at h1 h2
          obtain ⟨⟨bs, e⟩, m'⟩ := r
          simp only [Prod.mk.injEq] at h1
          obtain ⟨rfl, rfl⟩ := h1
          simp only at h2
          cases hev : ev.err with
          | none => exact ih n' m' min _ (by rw [h2]; omega) (by rw [h2]; omega)
          | some e => rfl
        · obtain ⟨h1, h2⟩ := m.Read_split (min - got.length) ev rest hreads hfit
          generalize m.Read (min - got.length) = r at h1 h2
          obtain ⟨⟨bs, e⟩, m'⟩ := r
          simp only [Prod.mk.injEq] at h1
          obtain ⟨rfl, rfl⟩ := h1
          simp only
          obtain ⟨f', rfl⟩ : ∃ f', fuel = f' + 1 := ⟨fuel - 1, by omega⟩
          obtain ⟨n'', rfl⟩ : ∃ n'', n' = n'' + 1 := ⟨n' - 1, by omega⟩
          have hfull : min ≤ (got ++ List.take (min - got.length) ev.data).length := by
            simp only [List.length_append, List.length_take]
            omega
          rw [ReadAtLeastLoop_done _ _ _ _ hfull, ReadAtLeastLoop_done _ _ _ _ hfull]
    · rw [ReadAtLeastLoop_done _ _ _ _ (by omega), ReadAtLeastLoop_done _ _ _ _ (by omega)]

/-- On an error-free stream holding at least `min` bytes, `io.ReadAtLeast` returns the
first `min` bytes and leaves the rest of the stream unread. -/
theorem ReadAtLeast_enough (m : Medium) (min : Nat) (hclean : ErrorFree m.reads)
    (h : min ≤ (pending m.reads).length) :
    (ReadAtLeast m min).1 = ((pending m.reads).take min, none) ∧
    pending (ReadAtLeast m min).2.reads = (pending m.reads).drop min ∧
    ErrorFree (ReadAtLeast m min).2.reads := by
  obtain ⟨h1, h2, h3⟩ :=
    (ReadAtLeastLoop_spec m.reads (m.reads.length + 1) m min [] rfl hclean
      (Nat.lt_succ_self _)).1 (by simpa using h)
  simp only [List.length_nil, Nat.sub_zero, List.nil_append] at h1 h2
  unfold ReadAtLeast
  generalize ReadAtLeastLoop (m.reads.length + 1) m min [] = r at h1 h2 h3
  obtain ⟨⟨got, err⟩, m'⟩ := r
  simp only [Prod.mk.injEq] at h1
  obtain ⟨rfl, rfl⟩ := h1
  simp only at h2 h3 ⊢
  rw [if_pos (by rw [List.length_take]; omega)]
  exact ⟨rfl, h2, h3⟩

/-- On an error-free stream that ends before `min` bytes, `io.ReadAtLeast` fails: with
`io.EOF` when nothing was left, with `io.ErrUnexpectedEOF` after a partial read. -/
theorem ReadAtLeast_short (m : Medium) (min : Nat) (hclean : ErrorFree m.reads)
    (h : (pending m.reads).length < min) :
    (ReadAtLeast m min).1 = (pending m.reads,
      some (if pending m.reads = [] then Error.EOF else Error.ErrUnexpectedEOF)) ∧
    (ReadAtLeast m min).2.reads = [] := by
  obtain ⟨h1, h2⟩ :=
    (ReadAtLeastLoop_spec m.reads (m.reads.length + 1) m min [] rfl hclean
      (Nat.lt_succ_self _)).2 (by simpa using h)
  simp only [List.nil_append] at h1
  unfold ReadAtLeast
  generalize ReadAtLeastLoop (m.reads.length + 1) m min [] = r at h1 h2
  obtain ⟨⟨got, err⟩, m'⟩ := r
  simp only [Prod.mk.injEq] at h1
  obtain ⟨rfl, rfl⟩ := h1
  simp only at h2 ⊢
  rw [if_neg (by omega)]
  by_cases hnil : pending m.reads = []
  · simp [hnil, h2]
  · have hpos : 0 < (pending m.reads).length := List.length_pos.mpr hnil
    simp [hnil, h2, hpos]

/-! ## Lemmas: the codec -/

theorem messageHeader_PutUint32 (msg : Message) :
    messageHeader msg = PutUint32 msg.Command ++ (PutUint32 msg.Arg1 ++ (PutUint32 msg.Arg2 ++
      (PutUint32 (msg.Data.length % 2 ^ 32) ++ (PutUint32 (ChecksumIEEE msg.Data) ++
        PutUint32 (msg.Command ^^^ 0xFFFFFFFF))))) := by
  simp [messageHeader, storeAt, PutUint32, List.replicate]

theorem messageHeader_length (msg : Message) : (messageHeader msg).length = 24 := by
  simp [messageHeader_PutUint32, PutUint32]

theorem Medium.Write_trace (m : Medium) (b : List Nat) :
    (m.Write b).2.trace = m.trace ++ [Op.Write b (m.Write b).1.1 (m.Write b).1.2] := by
  unfold Medium.Write
  cases m.writes <;> rfl

theorem Medium.Write_reads (m : Medium) (b : List Nat) : (m.Write b).2.reads = m.reads := by
  unfold Medium.Write
  cases m.writes <;> rfl

theorem Medium.Write_err (m : Medium) (b : List Nat) (h : ∀ ev ∈ m.writes, ev.err = none) :
    (m.Write b).1.2 = none ∧ ∀ ev ∈ (m.Write b).2.writes, ev.err = none := by
  unfold Medium.Write
  cases hw : m.writes with
  | nil => simp
  | cons ev rest =>
    rw [hw] at h
    exact ⟨h ev (List.mem_cons_self _ _), fun e he => h e (List.mem_cons_of_mem _ he)⟩

theorem Medium.Write_full (m : Medium) (b : List Nat)
    (h : ∀ ev ∈ m.writes, ev.short = 0 ∧ ev.err = none) :
    (m.Write b).1 = (b.length, none) ∧
    ∀ ev ∈ (m.Write b).2.writes, ev.short = 0 ∧ ev.err = none := by
  unfold Medium.Write
  cases hw : m.writes with
  | nil => simp
  | cons ev rest =>
    rw [hw] at h
    obtain ⟨h1, h2⟩ := h ev (List.mem_cons_self _ _)
    exact ⟨by simp [h1, h2], fun e he => h e (List.mem_cons_of_mem _ he)⟩

/-- When both writes report no error, `WriteMessage` returns `nil` after exactly two
`Write` calls: the header, then the payload. -/
theorem WriteMessage_ok (medium : Medium) (msg : Message)
    (h : ∀ ev ∈ medium.writes, ev.err = none) :
    (WriteMessage medium msg).1 = none ∧
    (WriteMessage medium msg).2.trace = medium.trace ++
      [Op.Write (messageHeader msg) (medium.Write (messageHeader msg)).1.1 none,
       Op.Write msg.Data ((medium.Write (messageHeader msg)).2.Write msg.Data).1.1 none] ∧
    (WriteMessage medium msg).2.reads = medium.reads ∧
    ∀ ev ∈ (WriteMessage medium msg).2.writes, ev.err = none := by
  obtain ⟨e1, hw1⟩ := medium.Write_err (messageHeader msg) h
  have t1 := medium.Write_trace (messageHeader msg)
  have r1 := medium.Write_reads (messageHeader msg)
  unfold WriteMessage
  simp only
  generalize medium.Write (messageHeader msg) = w1 at e1 hw1 t1 r1
  obtain ⟨⟨n1, err1⟩, m1⟩ := w1
  simp only at e1 hw1 t1 r1
  subst e1
  obtain ⟨e2, hw2⟩ := m1.Write_err msg.Data hw1
  have t2 := m1.Write_trace msg.Data
  have r2 := m1.Write_reads msg.Data
  simp only
  generalize m1.Write msg.Data = w2 at e2 hw2 t2 r2
  obtain ⟨⟨n2, err2⟩, m2⟩ := w2
  simp only at e2 hw2 t2 r2
  subst e2
  simp only
  refine ⟨trivial, ?_, ?_, hw2⟩
  · rw [t2, t1, List.append_assoc]
    rfl
  · rw [r2, r1]

/-- On an error-free stream holding a whole message, `ReadMessage` decodes the four header
words it uses, returns the payload and leaves the rest of the stream unread. -/
theorem ReadMessage_ok (medium : Medium) (hclean : ErrorFree medium.reads)
    (h24 : 24 ≤ (pending medium.reads).length)
    (hlen : 24 + Uint32 (((pending medium.reads).take 24).drop 12) ≤
      (pending medium.reads).length) :
    (ReadMessage medium).1 =
      ({ Command := Uint32 ((pending medium.reads).take 24),
         Arg1 := Uint32 (((pending medium.reads).take 24).drop 4),
         Arg2 := Uint32 (((pending medium.reads).take 24).drop 8),
         Data := ((pending medium.reads).drop 24).take
           (Uint32 (((pending medium.reads).take 24).drop 12)) }, none) ∧
    pending (ReadMessage medium).2.reads = (pending medium.reads).drop
      (24 + Uint32 (((pending medium.reads).take 24).drop 12)) ∧
    ErrorFree (ReadMessage medium).2.reads := by
  obtain ⟨a1, a2, a3⟩ := ReadAtLeast_enough medium 24 hclean h24
  unfold ReadMessage
  generalize ReadAtLeast medium 24 = r1 at a1 a2 a3
  obtain ⟨⟨header, err1⟩, m1⟩ := r1
  simp only [Prod.mk.injEq] at a1
  obtain ⟨rfl, rfl⟩ := a1
  simp only at a2 a3 ⊢
  obtain ⟨b1, b2, b3⟩ := ReadAtLeast_enough m1
    (Uint32 (((pending medium.reads).take 24).drop 12)) a3
    (by rw [a2, List.length_drop]; omega)
  generalize ReadAtLeast m1 (Uint32 (((pending medium.reads).take 24).drop 12)) = r2
    at b1 b2 b3
  obtain ⟨⟨got, err2⟩, m2⟩ := r2
  simp only [Prod.mk.injEq] at b1
  obtain ⟨rfl, rfl⟩ := b1
  simp only at b2 b3 ⊢
  rw [a2] at b2 ⊢
  refine ⟨by simp, ?_, b3⟩
  rw [b2, List.drop_drop]

/-- On an error-free stream that ends inside the header, `ReadMessage` fails. -/
theorem ReadMessage_short_header (medium : Medium) (hclean : ErrorFree medium.reads)
    (h24 : (pending medium.reads).length < 24) :
    (ReadMessage medium).1.2 = some (Error.wrapError "Unable to read message header (24 bytes): "
      (if pending medium.reads = [] then Error.EOF else Error.ErrUnexpectedEOF)) := by
  obtain ⟨a1, _⟩ := ReadAtLeast_short medium 24 hclean h24
  unfold ReadMessage
  generalize ReadAtLeast medium 24 = r1 at a1
  obtain ⟨⟨header, err1⟩, m1⟩ := r1
  simp only [Prod.mk.injEq] at a1
  obtain ⟨rfl, rfl⟩ := a1
  rfl

/-- On an error-free stream that ends inside the payload, `ReadMessage` fails. -/
theorem ReadMessage_short_body (medium : Medium) (hclean : ErrorFree medium.reads)
    (h24 : 24 ≤ (pending medium.reads).length)
    (hlen : (pending medium.reads).length <
      24 + Uint32 (((pending medium.reads).take 24).drop 12)) :
    ∃ e, (ReadMessage medium).1.2 = some e := by
  obtain ⟨a1, a2, a3⟩ := ReadAtLeast_enough medium 24 hclean h24
  unfold ReadMessage
  generalize ReadAtLeast medium 24 = r1 at a1 a2 a3
  obtain ⟨⟨header, err1⟩, m1⟩ := r1
  simp only [Prod.mk.injEq] at a1
  obtain ⟨rfl, rfl⟩ := a1
  simp only at a2 a3 ⊢
  obtain ⟨b1, _⟩ := ReadAtLeast_short m1
    (Uint32 (((pending medium.reads).take 24).drop 12)) a3
    (by rw [a2, List.length_drop]; omega)
  generalize ReadAtLeast m1 (Uint32 (((pending medium.reads).take 24).drop 12)) = r2 at b1
  obtain ⟨⟨got, err2⟩, m2⟩ := r2
  simp only [Prod.mk.injEq] at b1
  obtain ⟨rfl, rfl⟩ := b1
  exact ⟨_, rfl⟩

theorem Uint32_messageHeader (msg : Message) :
    Uint32 (messageHeader msg) = msg.Command % 2 ^ 32 ∧
    Uint32 ((messageHeader msg).drop 4) = msg.Arg1 % 2 ^ 32 ∧
    Uint32 ((messageHeader msg).drop 8) = msg.Arg2 % 2 ^ 32 ∧
    Uint32 ((messageHeader msg).drop 12) = msg.Data.length % 2 ^ 32 := by
  rw [messageHeader_PutUint32]
  refine ⟨Uint32_PutUint32 _ _, ?_, ?_, ?_⟩
  · exact Uint32_PutUint32 msg.Arg1 _
  · exact Uint32_PutUint32 msg.Arg2 _
  · have h := Uint32_PutUint32 (msg.Data.length % 2 ^ 32)
      (PutUint32 (ChecksumIEEE msg.Data) ++ PutUint32 (msg.Command ^^^ 0xFFFFFFFF))
    rw [Nat.mod_mod] at h
    exact h

/-! ## The codec: wire layout, round trip, short reads -/

/-- C1. Round trip: a well-formed message with fewer than `2 ^ 32` payload bytes (possibly
none), written by `WriteMessage` to a transport that takes every byte without error and
then read by `ReadMessage` from an error-free stream that delivers exactly the bytes taken,
in any chunking, comes back unchanged and without error (same `Command`, `Arg1`, `Arg2`
and `Data`). -/
theorem ReadMessage_WriteMessage_roundtrip (msg : Message) (w r : Medium)
    (hwf : msg.WF) (hlen : msg.Data.length < 2 ^ 32)
    (hw : ∀ ev ∈ w.writes, ev.short = 0 ∧ ev.err = none)
    (hr : ErrorFree r.reads)
    (hbytes : pending r.reads =
      acceptedOf ((WriteMessage w msg).2.trace.drop w.trace.length)) :
    (WriteMessage w msg).1 = none ∧ (ReadMessage r).1 = (msg, none) := by
  obtain ⟨hc, ha1, ha2, _⟩ := hwf
  obtain ⟨w1, w2, _, _⟩ := WriteMessage_ok w msg (fun ev he => (hw ev he).2)
  obtain ⟨f1, hw'⟩ := w.Write_full (messageHeader msg) hw
  obtain ⟨f2, _⟩ := (w.Write (messageHeader msg)).2.Write_full msg.Data hw'
  refine ⟨w1, ?_⟩
  rw [w2, List.drop_left, f1, f2] at hbytes
  simp only [acceptedOf, List.take_length, List.append_nil] at hbytes
  have hlen24 := messageHeader_length msg
  have htake : (pending r.reads).take 24 = messageHeader msg := by
    rw [hbytes, List.take_left' hlen24]
  have hdrop : (pending r.reads).drop 24 = msg.Data := by
    rw [hbytes, List.drop_left' hlen24]
  obtain ⟨u0, u4, u8, u12⟩ := Uint32_messageHeader msg
  rw [Nat.mod_eq_of_lt hc] at u0
  rw [Nat.mod_eq_of_lt ha1] at u4
  rw [Nat.mod_eq_of_lt ha2] at u8
  rw [Nat.mod_eq_of_lt hlen] at u12
  have htot : (pending r.reads).length = 24 + msg.Data.length := by
    rw [hbytes, List.length_append, hlen24]
  obtain ⟨h1, _, _⟩ := ReadMessage_ok r hr (by omega) (by rw [htake, u12, htot])
  rw [h1, htake, hdrop, u0, u4, u8, u12, List.take_length]

/-- Witness of C1: the message `OKAY(1, 2)` with payload `[7, 8, 9]`, delivered to the
reader in chunks of 10, 14 and 3 bytes. -/
theorem ReadMessage_WriteMessage_roundtrip_witness :
    (WriteMessage ⟨[], [], [], [], []⟩ ⟨MessageCommand_Okay, 1, 2, [7, 8, 9]⟩).1 = none ∧
    (ReadMessage ⟨[⟨(messageHeader ⟨MessageCommand_Okay, 1, 2, [7, 8, 9]⟩).take 10, none⟩,
        ⟨(messageHeader ⟨MessageCommand_Okay, 1, 2, [7, 8, 9]⟩).drop 10, none⟩,
        ⟨[7, 8, 9], none⟩], [], [], [], []⟩).1 =
      (⟨MessageCommand_Okay, 1, 2, [7, 8, 9]⟩, none) :=
  ReadMessage_WriteMessage_roundtrip ⟨MessageCommand_Okay, 1, 2, [7, 8, 9]⟩
    ⟨[], [], [], [], []⟩ _
    (by simp [Message.WF, MessageCommand_Okay]) (by simp)
    (by simp) (by simp [ErrorFree])
    (by rfl)

/-- C2. Wire layout of `WriteMessage`: on a transport whose writes report no error it
returns `nil` after exactly two `Write` calls, first the 24-byte header and then `Data`
unchanged, and the header is the concatenation of the 4-byte little-endian encodings of
`Command`, `Arg1`, `Arg2`, `len(Data)`, `CRC32-IEEE(Data)` and `Command XOR 0xFFFFFFFF`. -/
theorem WriteMessage_wire_layout (medium : Medium) (msg : Message)
    (h : ∀ ev ∈ medium.writes, ev.err = none) :
    (WriteMessage medium msg).1 = none ∧
    (∃ n1 n2, (WriteMessage medium msg).2.trace = medium.trace ++
      [Op.Write (messageHeader msg) n1 none, Op.Write msg.Data n2 none]) ∧
    (messageHeader msg).length = 24 ∧
    messageHeader msg =
      littleEndianBytes 4 msg.Command ++ littleEndianBytes 4 msg.Arg1 ++
      littleEndianBytes 4 msg.Arg2 ++ littleEndianBytes 4 msg.Data.length ++
      littleEndianBytes 4 (ChecksumIEEE msg.Data) ++
      littleEndianBytes 4 (msg.Command ^^^ 0xFFFFFFFF) := by
  obtain ⟨w1, w2, _, _⟩ := WriteMessage_ok medium msg h
  refine ⟨w1, ⟨_, _, w2⟩, messageHeader_length msg, ?_⟩
  have hmod : littleEndianBytes 4 (msg.Data.length % 2 ^ 32) =
      littleEndianBytes 4 msg.Data.length := littleEndianBytes_mod 4 msg.Data.length
  rw [messageHeader_PutUint32]
  simp only [PutUint32_eq, hmod, List.append_assoc]

/-- Witness of C2: the message `OKAY(1, 2)` with payload `[7, 8, 9]` on a transport with
no scripted failure. -/
theorem WriteMessage_wire_layout_witness :
    (WriteMessage ⟨[], [], [], [], []⟩ ⟨MessageCommand_Okay, 1, 2, [7, 8, 9]⟩).1 = none ∧
    (∃ n1 n2, (WriteMessage ⟨[], [], [], [], []⟩ ⟨MessageCommand_Okay, 1, 2, [7, 8, 9]⟩).2.trace =
      ([] : List Op) ++
      [Op.Write (messageHeader ⟨MessageCommand_Okay, 1, 2, [7, 8, 9]⟩) n1 none,
       Op.Write [7, 8, 9] n2 none]) ∧
    (messageHeader ⟨MessageCommand_Okay, 1, 2, [7, 8, 9]⟩).length = 24 ∧
    messageHeader ⟨MessageCommand_Okay, 1, 2, [7, 8, 9]⟩ =
      littleEndianBytes 4 MessageCommand_Okay ++ littleEndianBytes 4 1 ++
      littleEndianBytes 4 2 ++ littleEndianBytes 4 3 ++
      littleEndianBytes 4 (ChecksumIEEE [7, 8, 9]) ++
      littleEndianBytes 4 (MessageCommand_Okay ^^^ 0xFFFFFFFF) :=
  WriteMessage_wire_layout ⟨[], [], [], [], []⟩ ⟨MessageCommand_Okay, 1, 2, [7, 8, 9]⟩
    (by simp)

/-! ## Lemmas: byte order -/

theorem bigToLittleEndianLoop_reverse (fuel : Nat) :
    ∀ (pre mid post : List Nat), mid.length ≤ 2 * fuel + 1 →
      bigToLittleEndianLoop fuel (pre ++ (mid ++ post)) pre.length
        (pre.length + mid.length - 1) = pre ++ (mid.reverse ++ post) := by
  induction fuel with
  | zero =>
    intro pre mid post h
    match mid, h with
    | [], _ => rfl
    | [a], _ => rfl
  | succ fuel ih =>
    intro pre mid post h
    match mid, h with
    | [], _ => simp [bigToLittleEndianLoop]
    | [a], _ => simp [bigToLittleEndianLoop]
    | a :: b :: tl, h =>
      obtain ⟨mid', c, hc⟩ : ∃ mid' c, b :: tl = mid' ++ [c] :=
        ⟨(b :: tl).dropLast, (b :: tl).getLast (by simp),
          (List.dropLast_append_getLast (by simp)).symm⟩
      rw [hc] at h ⊢
      simp only [List.length_cons, List.length_append, List.length_nil] at h
      have hj : pre.length + (a :: (mid' ++ [c])).length - 1 = pre.length + (mid'.length + 1) := by
        simp only [List.length_cons, List.length_append, List.length_nil]; omega
      rw [hj, bigToLittleEndianLoop, if_pos (by omega)]
      have hgi : (pre ++ (a :: (mid' ++ [c]) ++ post)).getD pre.length 0 = a := by
        rw [List.getD_append_right _ _ _ _ (le_refl _)]; simp
      have hgj : (pre ++ (a :: (mid' ++ [c]) ++ post)).getD (pre.length + (mid'.length + 1)) 0
          = c := by
        rw [List.getD_append_right _ _ _ _ (by omega)]
        have : pre.length + (mid'.length + 1) - pre.length = (mid'.length) + 1 := by omega
        rw [this]
        simp only [List.cons_append, List.append_assoc, List.getD_cons_succ]
        rw [List.getD_append_right _ _ _ _ (le_refl _)]; simp
      rw [hgi, hgj]
      have hset : ((pre ++ (a :: (mid' ++ [c]) ++ post)).set pre.length c).set
          (pre.length + (mid'.length + 1)) a = (pre ++ [c]) ++ (mid' ++ ([a] ++ post)) := by
        rw [List.set_append_right _ _ (le_refl _), List.set_append_right _ _ (by omega)]
        have : pre.length + (mid'.length + 1) - pre.length = (mid'.length) + 1 := by omega
        rw [this]
        simp only [Nat.sub_self, List.cons_append, List.append_assoc, List.set_cons_zero,
          List.set_cons_succ, List.nil_append]
        rw [List.set_append_right _ _ (le_refl _)]
        simp
      rw [hset]
      have hI := ih (pre ++ [c]) mid' ([a] ++ post) (by omega)
      simp only [List.length_append, List.length_cons, List.length_nil] at hI
      have hidx : pre.length + (mid'.length + 1) - 1 = pre.length + 0 + 1 + mid'.length - 1 := by
        omega
      rw [hidx, hI]
      simp

/-- The swap loop of `bigToLittleEndian` reverses the slice. -/
theorem bigToLittleEndian_eq_reverse (s : List Nat) : bigToLittleEndian s = s.reverse := by
  have h := bigToLittleEndianLoop_reverse s.length [] s [] (by omega)
  simpa [bigToLittleEndian] using h

theorem bigEndianBytes_reverse (n x : Nat) :
    (bigEndianBytes n x).reverse = littleEndianBytes n x := by
  induction n generalizing x with
  | zero => rfl
  | succ n ih => simp [bigEndianBytes, littleEndianBytes, ih]

/-- A successful `FillBytes` followed by `bigToLittleEndian` stores the little-endian
encoding. -/
theorem FillBytes_littleEndian (x len : Nat) (h : x < 256 ^ len) :
    ∃ b, FillBytes x len = some b ∧ bigToLittleEndian b = littleEndianBytes len x :=
  ⟨bigEndianBytes len x, by simp [FillBytes, h],
    by rw [bigToLittleEndian_eq_reverse, bigEndianBytes_reverse]⟩

/-! ## Lemmas: the modular inverse -/

theorem xgcdLoop_spec (g n : Nat) (fuel : Nat) :
    ∀ (r0 : Nat) (s0 : Int) (r1 : Nat) (s1 : Int), r1 < fuel →
      s0 * g ≡ r0 [ZMOD n] → s1 * g ≡ r1 [ZMOD n] →
      (xgcdLoop fuel r0 s0 r1 s1).1 = Nat.gcd r0 r1 ∧
      (xgcdLoop fuel r0 s0 r1 s1).2 * g ≡ ((xgcdLoop fuel r0 s0 r1 s1).1 : Int) [ZMOD n] := by
  induction fuel with
  | zero => intro r0 s0 r1 s1 h; omega
  | succ fuel ih =>
    intro r0 s0 r1 s1 hf h0 h1
    by_cases hr : r1 = 0
    · subst hr
      simp only [xgcdLoop, if_true, Nat.gcd_zero_right]
      exact ⟨trivial, h0⟩
    · have hlt : r0 % r1 < fuel := by
        have := Nat.mod_lt r0 (Nat.pos_of_ne_zero hr)
        omega
      have hmod : ((r0 % r1 : Nat) : Int) = (r0 : Int) - ((r0 / r1 : Nat) : Int) * r1 := by
        have := Nat.mod_add_div r0 r1
        have h2 : ((r0 % r1 : Nat) : Int) + (r1 : Int) * ((r0 / r1 : Nat) : Int) = r0 := by
          exact_mod_cast this
        linarith
      have hnew : (s0 - ((r0 / r1 : Nat) : Int) * s1) * g ≡ ((r0 % r1 : Nat) : Int) [ZMOD n] := by
        rw [hmod]
        have e : (s0 - ((r0 / r1 : Nat) : Int) * s1) * g =
            s0 * g - ((r0 / r1 : Nat) : Int) * (s1 * g) := by ring
        rw [e]
        exact Int.ModEq.sub h0 (Int.ModEq.mul_left _ h1)
      obtain ⟨i1, i2⟩ := ih r1 s1 (r0 % r1) _ hlt h1 hnew
      simp only [xgcdLoop, if_neg hr]
      refine ⟨?_, i2⟩
      rw [i1, Nat.gcd_comm r0 r1, Nat.gcd_rec r1 r0, Nat.gcd_comm]

/-- `ModInverse` of a unit of the ring of integers modulo `n` is its inverse, in the range
`0 <= z < n`. -/
theorem ModInverse_spec (z g n : Nat) (hn : 1 < n) (hg : Nat.gcd g n = 1) :
    ModInverse z g n < n ∧ (g * ModInverse z g n) % n = 1 := by
  obtain ⟨h1, h2⟩ := xgcdLoop_spec g n (n + 1) g 1 n 0 (Nat.lt_succ_self _)
    (by simp) (by simpa using (Int.modEq_zero_iff_dvd.mpr (dvd_refl (n : Int))).symm)
  rw [h1, hg] at h2
  simp only [ModInverse, if_pos hg]
  set x := (xgcdLoop (n + 1) g 1 n 0).2 with hx
  have hnpos : (0 : Int) < n := by exact_mod_cast (by omega : 0 < n)
  have hnn : 0 ≤ x % (n : Int) := Int.emod_nonneg _ (by omega)
  have hlt : x % (n : Int) < n := Int.emod_lt_of_pos _ hnpos
  have hcast : ((x % (n : Int)).toNat : Int) = x % (n : Int) := Int.toNat_of_nonneg hnn
  constructor
  · have : ((x % (n : Int)).toNat : Int) < n := by rw [hcast]; exact hlt
    exact_mod_cast this
  · have hm : ((g * (x % (n : Int)).toNat : Nat) : Int) ≡ 1 [ZMOD n] := by
      push_cast
      rw [hcast]
      have : (g : Int) * (x % n) ≡ g * x [ZMOD n] :=
        Int.ModEq.mul_left _ (Int.mod_modEq x n)
      refine this.trans ?_
      rw [mul_comm]
      exact_mod_cast h2
    have h3 : (g * (x % (n : Int)).toNat) ≡ 1 [MOD n] :=
      Int.natCast_modEq_iff.mp (by exact_mod_cast hm)
    rw [Nat.ModEq, Nat.mod_eq_of_lt hn] at h3
    exact h3

/-- The Montgomery constant computed for an odd modulus: it is a non-zero 32-bit value `v`
with `N * v = -1` modulo `2 ^ 32`, namely `2 ^ 32` minus the inverse of `N mod 2 ^ 32`. -/
theorem n0inv_spec (N : Nat) (hodd : N % 2 = 1) :
    0 < n0inv N ∧ n0inv N < 2 ^ 32 ∧ (N * n0inv N) % 2 ^ 32 = 2 ^ 32 - 1 ∧
    ∃ x, x < 2 ^ 32 ∧ ((N % 2 ^ 32) * x) % 2 ^ 32 = 1 ∧ n0inv N = 2 ^ 32 - x := by
  have hcop : Nat.gcd (N % 2 ^ 32) (2 ^ 32) = 1 := by
    have h2 : Nat.Coprime (N % 2 ^ 32) 2 := by
      rw [Nat.coprime_two_right, Nat.odd_iff]
      omega
    exact Nat.Coprime.pow_right 32 h2
  obtain ⟨h1, h2⟩ := ModInverse_spec (N % 2 ^ 32) (N % 2 ^ 32) (2 ^ 32) (by norm_num) hcop
  have hdef : n0inv N = 2 ^ 32 - ModInverse (N % 2 ^ 32) (N % 2 ^ 32) (2 ^ 32) := rfl
  set x := ModInverse (N % 2 ^ 32) (N % 2 ^ 32) (2 ^ 32) with hx
  have hx0 : x ≠ 0 := by
    intro h0
    rw [h0] at h2
    simp at h2
  refine ⟨by omega, by omega, ?_, x, h1, h2, hdef⟩
  rw [Nat.mul_mod, hdef]
  have hmod : (2 ^ 32 - x) % 2 ^ 32 = 2 ^ 32 - x := Nat.mod_eq_of_lt (by omega)
  rw [hmod]
  have hsum : N % 2 ^ 32 * (2 ^ 32 - x) + N % 2 ^ 32 * x = 2 ^ 32 * (N % 2 ^ 32) := by
    rw [← Nat.mul_add, Nat.sub_add_cancel (by omega), Nat.mul_comm]
  generalize N % 2 ^ 32 * (2 ^ 32 - x) = Q at hsum ⊢
  generalize N % 2 ^ 32 * x = P at hsum h2
  generalize N % 2 ^ 32 = R at hsum
  omega

/-! ## Lemmas: the public-key record -/

theorem storeAt_append (A B bs : List Nat) :
    storeAt (A ++ B) A.length bs = A ++ (bs ++ B.drop bs.length) := by
  simp [storeAt, List.drop_append]

theorem EncodeToString_length (src : List Nat) :
    (EncodeToString src).length = (src.length + 2) / 3 * 4 := by
  induction src using EncodeToString.induct with
  | case1 => rfl
  | case2 a => simp [EncodeToString]
  | case3 a b => simp [EncodeToString]
  | case4 a b c rest ih =>
    simp only [EncodeToString, List.length_cons, ih]
    omega

set_option maxRecDepth 10000 in
/-- The array `encodePublicKey` fills in, for a non-zero modulus below `2 ^ 2048` whose
Montgomery constant fits in 32 bits: word count, Montgomery constant, modulus, `R^2` and
exponent, each little-endian. -/
theorem encodePublicKeyRecord_eq (publicKey : RsaPublicKey)
    (h0 : n0inv publicKey.N < 2 ^ 32) (hN0 : publicKey.N ≠ 0)
    (hN : publicKey.N < 2 ^ 2048) :
    encodePublicKeyRecord publicKey = some
      (littleEndianBytes 4 64 ++ (littleEndianBytes 4 (n0inv publicKey.N) ++
        (littleEndianBytes 256 publicKey.N ++
          (littleEndianBytes 256 (2 ^ 4096 % publicKey.N) ++
            littleEndianBytes 4 (publicKey.E % 2 ^ 32).toNat)))) := by
  have e256 : (256 : Nat) ^ 256 = 2 ^ 2048 := (pow_mul 2 8 256).symm
  have hrr : (2 : Nat) ^ (256 * 8) * 2 ^ (256 * 8) = 2 ^ 4096 := by
    rw [← pow_add]
  obtain ⟨b1, f1, l1⟩ := FillBytes_littleEndian (n0inv publicKey.N) 4 (by simpa using h0)
  obtain ⟨b2, f2, l2⟩ := FillBytes_littleEndian publicKey.N 256 (by rw [e256]; exact hN)
  obtain ⟨b3, f3, l3⟩ := FillBytes_littleEndian (2 ^ 4096 % publicKey.N) 256
    (by rw [e256]; exact lt_trans (Nat.mod_lt _ (Nat.pos_of_ne_zero hN0)) hN)
  have len1 := littleEndianBytes_length 4 (n0inv publicKey.N)
  have len2 := littleEndianBytes_length 256 publicKey.N
  have len3 := littleEndianBytes_length 256 (2 ^ 4096 % publicKey.N)
  have len0 : (PutUint32 64).length = 4 := rfl
  have lenE : (PutUint32 (publicKey.E % 2 ^ 32).toNat).length = 4 := rfl
  unfold encodePublicKeyRecord
  simp only [f1, f2, hrr, if_neg hN0, f3, l1, l2, l3, -List.reduceReplicate]
  have s0 : storeAt (List.replicate (4 + 4 + 256 + 256 + 4) 0) 0 (PutUint32 (256 / 4)) =
      PutUint32 64 ++ List.replicate 520 0 := by
    have := storeAt_append [] (List.replicate 524 0) (PutUint32 64)
    simpa [len0, -List.reduceReplicate] using this
  rw [s0]
  have s1 : storeAt (PutUint32 64 ++ List.replicate 520 0) 4
      (littleEndianBytes 4 (n0inv publicKey.N)) =
      (PutUint32 64 ++ littleEndianBytes 4 (n0inv publicKey.N)) ++ List.replicate 516 0 := by
    have := storeAt_append (PutUint32 64) (List.replicate 520 0)
      (littleEndianBytes 4 (n0inv publicKey.N))
    rw [len0, len1] at this
    simpa [-List.reduceReplicate] using this
  rw [s1]
  have s2 : storeAt ((PutUint32 64 ++ littleEndianBytes 4 (n0inv publicKey.N)) ++
        List.replicate 516 0) 8 (littleEndianBytes 256 publicKey.N) =
      ((PutUint32 64 ++ littleEndianBytes 4 (n0inv publicKey.N)) ++
        littleEndianBytes 256 publicKey.N) ++ List.replicate 260 0 := by
    have := storeAt_append (PutUint32 64 ++ littleEndianBytes 4 (n0inv publicKey.N))
      (List.replicate 516 0) (littleEndianBytes 256 publicKey.N)
    rw [List.length_append, len0, len1, len2] at this
    simpa [-List.reduceReplicate] using this
  rw [s2]
  have s3 : storeAt (((PutUint32 64 ++ littleEndianBytes 4 (n0inv publicKey.N)) ++
        littleEndianBytes 256 publicKey.N) ++ List.replicate 260 0) (8 + 256)
        (littleEndianBytes 256 (2 ^ 4096 % publicKey.N)) =
      (((PutUint32 64 ++ littleEndianBytes 4 (n0inv publicKey.N)) ++
        littleEndianBytes 256 publicKey.N) ++
          littleEndianBytes 256 (2 ^ 4096 % publicKey.N)) ++ List.replicate 4 0 := by
    have := storeAt_append ((PutUint32 64 ++ littleEndianBytes 4 (n0inv publicKey.N)) ++
        littleEndianBytes 256 publicKey.N)
      (List.replicate 260 0) (littleEndianBytes 256 (2 ^ 4096 % publicKey.N))
    rw [List.length_append, List.length_append, len0, len1, len2, len3] at this
    simpa [-List.reduceReplicate] using this
  rw [s3]
  have s4 : storeAt ((((PutUint32 64 ++ littleEndianBytes 4 (n0inv publicKey.N)) ++
        littleEndianBytes 256 publicKey.N) ++
          littleEndianBytes 256 (2 ^ 4096 % publicKey.N)) ++ List.replicate 4 0)
        (8 + 256 + 256) (PutUint32 (publicKey.E % 2 ^ 32).toNat) =
      (((PutUint32 64 ++ littleEndianBytes 4 (n0inv publicKey.N)) ++
        littleEndianBytes 256 publicKey.N) ++
          littleEndianBytes 256 (2 ^ 4096 % publicKey.N)) ++
            PutUint32 (publicKey.E % 2 ^ 32).toNat := by
    have := storeAt_append ((((PutUint32 64 ++ littleEndianBytes 4 (n0inv publicKey.N)) ++
        littleEndianBytes 256 publicKey.N) ++
          littleEndianBytes 256 (2 ^ 4096 % publicKey.N)))
      (List.replicate 4 0) (PutUint32 (publicKey.E % 2 ^ 32).toNat)
    rw [List.length_append, List.length_append, List.length_append, len0, len1, len2, len3,
      lenE] at this
    simpa [-List.reduceReplicate] using this
  rw [s4]
  simp only [PutUint32_eq, List.append_assoc]

theorem encodePublicKeyRecord_large (publicKey : RsaPublicKey)
    (hN : ¬ publicKey.N < 2 ^ 2048) : encodePublicKeyRecord publicKey = none := by
  have e256 : (256 : Nat) ^ 256 = 2 ^ 2048 := (pow_mul 2 8 256).symm
  have f2 : FillBytes publicKey.N 256 = none := by
    unfold FillBytes
    rw [e256, if_neg hN]
  unfold encodePublicKeyRecord
  cases h1 : FillBytes (n0inv publicKey.N) 4 with
  | none => rfl
  | some b => simp only [f2]

theorem encodePublicKeyRecord_n0inv (publicKey : RsaPublicKey) (encoded : List Nat)
    (hodd : publicKey.N % 2 = 1) (h : encodePublicKeyRecord publicKey = some encoded) :
    (encoded.drop 4).take 4 = littleEndianBytes 4 (n0inv publicKey.N) := by
  obtain ⟨_, hlt, _, _⟩ := n0inv_spec publicKey.N hodd
  by_cases hN : publicKey.N < 2 ^ 2048
  · rw [encodePublicKeyRecord_eq publicKey hlt (by omega) hN] at h
    injection h with h
    rw [← h, List.drop_left' (littleEndianBytes_length 4 64),
      List.take_left' (littleEndianBytes_length 4 _)]
  · rw [encodePublicKeyRecord_large publicKey hN] at h
    exact absurd h (by simp)

/-- The output of `encodePublicKey` for an odd modulus below `2 ^ 2048`: base64 of the
524-byte record, then one NUL byte; 701 bytes in all. -/
theorem encodePublicKey_odd (publicKey : RsaPublicKey)
    (hodd : publicKey.N % 2 = 1) (hN : publicKey.N < 2 ^ 2048) :
    ∃ encoded out,
      encoded = littleEndianBytes 4 64 ++ (littleEndianBytes 4 (n0inv publicKey.N) ++
        (littleEndianBytes 256 publicKey.N ++
          (littleEndianBytes 256 (2 ^ 4096 % publicKey.N) ++
            littleEndianBytes 4 (publicKey.E % 2 ^ 32).toNat))) ∧
      encoded.length = 524 ∧
      encodePublicKeyRecord publicKey = some encoded ∧
      encodePublicKey publicKey = some out ∧
      out = EncodeToString encoded ++ [0] ∧
      out.length = 701 ∧ out.getLast? = some 0 := by
  obtain ⟨_, hlt, _, _⟩ := n0inv_spec publicKey.N hodd
  have hrec := encodePublicKeyRecord_eq publicKey hlt (by omega) hN
  have hlen : (littleEndianBytes 4 64 ++ (littleEndianBytes 4 (n0inv publicKey.N) ++
        (littleEndianBytes 256 publicKey.N ++
          (littleEndianBytes 256 (2 ^ 4096 % publicKey.N) ++
            littleEndianBytes 4 (publicKey.E % 2 ^ 32).toNat)))).length = 524 := by
    simp only [List.length_append, littleEndianBytes_length]
  refine ⟨_, _, rfl, hlen, hrec, ?_, rfl, ?_, ?_⟩
  · simp only [encodePublicKey, hrec]
  · rw [List.length_append, EncodeToString_length, hlen]
    rfl
  · simp

/-! ## The public-key encoder -/

/-- C3 (amended). Public-key record layout: for an odd modulus `N < 2 ^ 2048` (an odd `N`
is positive) and an exponent `0 <= E < 2 ^ 32`, `encodePublicKey` returns the standard padded base64 of
`rec` followed by a single `0x00` byte, where `rec` is the 524-byte concatenation of
`LE32(64)`, `LE32(n0inv)`, the 256-byte little-endian encoding of `N`, the 256-byte
little-endian encoding of `2 ^ 4096 mod N`, and `LE32(E)`; the returned buffer is 701 bytes
long and its last byte is NUL. -/
theorem encodePublicKey_record_layout (publicKey : RsaPublicKey)
    (hodd : publicKey.N % 2 = 1) (hN : publicKey.N < 2 ^ 2048)
    (hE0 : 0 ≤ publicKey.E) (hE : publicKey.E < 2 ^ 32) :
    ∃ encoded out,
      encoded = littleEndianBytes 4 64 ++ (littleEndianBytes 4 (n0inv publicKey.N) ++
        (littleEndianBytes 256 publicKey.N ++
          (littleEndianBytes 256 (2 ^ 4096 % publicKey.N) ++
            littleEndianBytes 4 publicKey.E.toNat))) ∧
      encoded.length = 524 ∧
      encodePublicKey publicKey = some out ∧
      out = EncodeToString encoded ++ [0] ∧
      out.length = 701 ∧ out.getLast? = some 0 := by
  obtain ⟨encoded, out, h1, h2, _, h4, h5, h6, h7⟩ := encodePublicKey_odd publicKey hodd hN
  rw [Int.emod_eq_of_lt hE0 hE] at h1
  exact ⟨encoded, out, h1, h2, h4, h5, h6, h7⟩

/-- The record layout at the key `N = 3`, `E = 65537`. -/
theorem encodePublicKey_record_layout_witness :
    ∃ encoded out,
      encoded = littleEndianBytes 4 64 ++
        (littleEndianBytes 4 (n0inv (RsaPublicKey.mk 3 65537).N) ++
          (littleEndianBytes 256 (RsaPublicKey.mk 3 65537).N ++
            (littleEndianBytes 256 (2 ^ 4096 % (RsaPublicKey.mk 3 65537).N) ++
              littleEndianBytes 4 (RsaPublicKey.mk 3 65537).E.toNat))) ∧
      encoded.length = 524 ∧
      encodePublicKey ⟨3, 65537⟩ = some out ∧
      out = EncodeToString encoded ++ [0] ∧
      out.length = 701 ∧ out.getLast? = some 0 :=
  encodePublicKey_record_layout ⟨3, 65537⟩ (by decide)
    (lt_of_lt_of_le (by decide : 3 < 2 ^ 2) (Nat.pow_le_pow_right (by decide) (by decide)))
    (by decide) (by decide)

/-- C3 as stated fails: for the odd modulus `N = 3` and `E = 65537` the record has 524
bytes, not 356, and the returned buffer has 701 bytes, not 477. -/
theorem encodePublicKey_record_size_counterexample :
    ∃ encoded out, encodePublicKeyRecord ⟨3, 65537⟩ = some encoded ∧
      encodePublicKey ⟨3, 65537⟩ = some out ∧
      encoded.length = 524 ∧ encoded.length ≠ 356 ∧ out.length = 701 ∧ out.length ≠ 477 := by
  obtain ⟨encoded, out, _, h2, h3, h4, _, h6, _⟩ := encodePublicKey_odd ⟨3, 65537⟩ (by decide)
    (lt_of_lt_of_le (by decide : 3 < 2 ^ 2) (Nat.pow_le_pow_right (by decide) (by decide)))
  exact ⟨encoded, out, h3, h4, h2, by omega, h6, by omega⟩

/-- C4. Montgomery constant: for an odd modulus `N` (hence `N > 0`), the value `v` that
`encodePublicKey` stores little-endian in bytes 4..7 of the record satisfies
`0 < v < 2 ^ 32` and `(N * v) mod 2 ^ 32 = 2 ^ 32 - 1`, and `v = 2 ^ 32 - x` for the
inverse `x` of `N mod 2 ^ 32` modulo `2 ^ 32`. The store itself never fails, and whenever
the record is produced its bytes 4..7 hold `v`. -/
theorem encodePublicKey_montgomery_constant (N : Nat) (E : Int) (hodd : N % 2 = 1) :
    0 < n0inv N ∧ n0inv N < 2 ^ 32 ∧ (N * n0inv N) % 2 ^ 32 = 2 ^ 32 - 1 ∧
    (∃ x, x < 2 ^ 32 ∧ ((N % 2 ^ 32) * x) % 2 ^ 32 = 1 ∧ n0inv N = 2 ^ 32 - x) ∧
    (∃ b, FillBytes (n0inv N) 4 = some b ∧
      littleEndianValue (bigToLittleEndian b) = n0inv N) ∧
    (∀ encoded, encodePublicKeyRecord ⟨N, E⟩ = some encoded →
      littleEndianValue ((encoded.drop 4).take 4) = n0inv N) := by
  obtain ⟨h1, h2, h3, h4⟩ := n0inv_spec N hodd
  have hval : littleEndianValue (littleEndianBytes 4 (n0inv N)) = n0inv N := by
    rw [littleEndianValue_bytes]
    exact Nat.mod_eq_of_lt (by simpa using h2)
  refine ⟨h1, h2, h3, h4, ?_, ?_⟩
  · obtain ⟨b, hb1, hb2⟩ := FillBytes_littleEndian (n0inv N) 4 (by simpa using h2)
    exact ⟨b, hb1, by rw [hb2, hval]⟩
  · intro encoded h
    rw [encodePublicKeyRecord_n0inv ⟨N, E⟩ encoded hodd h, hval]

/-- The Montgomery constant at `N = 3`, `E = 65537`. -/
theorem encodePublicKey_montgomery_constant_witness :
    0 < n0inv 3 ∧ n0inv 3 < 2 ^ 32 ∧ (3 * n0inv 3) % 2 ^ 32 = 2 ^ 32 - 1 ∧
    (∃ x, x < 2 ^ 32 ∧ ((3 % 2 ^ 32) * x) % 2 ^ 32 = 1 ∧ n0inv 3 = 2 ^ 32 - x) ∧
    (∃ b, FillBytes (n0inv 3) 4 = some b ∧
      littleEndianValue (bigToLittleEndian b) = n0inv 3) ∧
    (∀ encoded, encodePublicKeyRecord ⟨3, 65537⟩ = some encoded →
      littleEndianValue ((encoded.drop 4).take 4) = n0inv 3) :=
  encodePublicKey_montgomery_constant 3 65537 (by decide)

theorem Uint32_header_length_field (s : List Nat) (h24 : 24 ≤ s.length)
    (hbytes : ∀ b ∈ s, b < 256) :
    Uint32 ((s.take 24).drop 12) = littleEndianValue ((s.drop 12).take 4) := by
  have hmem : ∀ b ∈ s.drop 12, b < 256 := fun b hb => hbytes b (List.mem_of_mem_drop hb)
  have hlen : 12 ≤ (s.drop 12).length := by rw [List.length_drop]; omega
  rw [List.drop_take]
  generalize s.drop 12 = t at hmem hlen
  match t, hlen with
  | b0 :: b1 :: b2 :: b3 :: rest, _ =>
    simp only [Nat.reduceSub, List.take_succ_cons, List.take_zero]
    exact Uint32_eq b0 b1 b2 b3 _ (hmem b0 (by simp)) (hmem b1 (by simp)) (hmem b2 (by simp))

/-- C10. Short reads: on a finite stream of bytes (an error-free read script, in any
chunking) `ReadMessage` returns an error when the stream ends before 24 header bytes, or
before `length` payload bytes after the header, `length` being the little-endian 32-bit
value of header bytes 12..15; otherwise it succeeds, returns the `length` bytes after the
header as `Data`, and leaves exactly the bytes after the first `24 + length` unread. -/
theorem ReadMessage_short_read (medium : Medium) (hclean : ErrorFree medium.reads)
    (hbytes : ∀ b ∈ pending medium.reads, b < 256) :
    ((pending medium.reads).length < 24 → (ReadMessage medium).1.2 ≠ none) ∧
    (24 ≤ (pending medium.reads).length →
      ((pending medium.reads).length <
          24 + littleEndianValue (((pending medium.reads).drop 12).take 4) →
        (ReadMessage medium).1.2 ≠ none) ∧
      (24 + littleEndianValue (((pending medium.reads).drop 12).take 4) ≤
          (pending medium.reads).length →
        (ReadMessage medium).1.2 = none ∧
        (ReadMessage medium).1.1.Data = ((pending medium.reads).drop 24).take
          (littleEndianValue (((pending medium.reads).drop 12).take 4)) ∧
        pending (ReadMessage medium).2.reads = (pending medium.reads).drop
          (24 + littleEndianValue (((pending medium.reads).drop 12).take 4)))) := by
  constructor
  · intro h
    rw [ReadMessage_short_header medium hclean h]
    simp
  · intro h24
    have hfield := Uint32_header_length_field (pending medium.reads) h24 hbytes
    constructor
    · intro h
      obtain ⟨e, he⟩ := ReadMessage_short_body medium hclean h24 (by rw [hfield]; exact h)
      rw [he]
      simp
    · intro h
      obtain ⟨h1, h2, _⟩ := ReadMessage_ok medium hclean h24 (by rw [hfield]; exact h)
      rw [hfield] at h1 h2
      rw [h1]
      exact ⟨rfl, rfl, h2⟩

/-- C10 at `sampleStream`, 27 bytes delivered in chunks of 5 and 22 whose header
announces a 2-byte payload: the message is read, its payload is `[9, 8]`, and the last
byte stays unread. -/
theorem ReadMessage_short_read_witness :
    (ReadMessage sampleStream).1.2 = none ∧
    (ReadMessage sampleStream).1.1.Data = [9, 8] ∧
    pending (ReadMessage sampleStream).2.reads = [7] :=
  ((ReadMessage_short_read sampleStream (by simp [ErrorFree, sampleStream])
    (by decide)).2 (by decide)).2 (by decide)

/-! ## Lemmas: what reading and writing leave on the transport -/

theorem writesOf_append (xs ys : List Op) : writesOf (xs ++ ys) = writesOf xs ++ writesOf ys := by
  induction xs with
  | nil => rfl
  | cons op xs ih => cases op <;> simp [writesOf, ih]

theorem Medium.Read_writes (m : Medium) (k : Nat) :
    (m.Read k).2.writes = m.writes ∧ writesOf (m.Read k).2.trace = writesOf m.trace := by
  unfold Medium.Read
  cases m.reads with
  | nil => simp [writesOf_append, writesOf]
  | cons ev rest =>
    by_cases h : ev.data.length ≤ k <;> simp [h, writesOf_append, writesOf]

theorem ReadAtLeastLoop_writes (fuel : Nat) :
    ∀ (m : Medium) (min : Nat) (got : List Nat),
      (ReadAtLeastLoop fuel m min got).2.writes = m.writes ∧
      writesOf (ReadAtLeastLoop fuel m min got).2.trace = writesOf m.trace := by
  induction fuel with
  | zero => intro m min got; exact ⟨rfl, rfl⟩
  | succ fuel ih =>
    intro m min got
    simp only [ReadAtLeastLoop]
    by_cases hlt : got.length < min
    · rw [if_pos hlt]
      obtain ⟨h1, h2⟩ := m.Read_writes (min - got.length)
      generalize m.Read (min - got.length) = r at h1 h2
      obtain ⟨⟨bs, e⟩, m'⟩ := r
      cases e with
      | none =>
        obtain ⟨i1, i2⟩ := ih m' min (got ++ bs)
        exact ⟨i1.trans h1, i2.trans h2⟩
      | some e => exact ⟨h1, h2⟩
    · rw [if_neg hlt]
      exact ⟨rfl, rfl⟩

theorem ReadAtLeast_writes (m : Medium) (min : Nat) :
    (ReadAtLeast m min).2.writes = m.writes ∧
    writesOf (ReadAtLeast m min).2.trace = writesOf m.trace := by
  have h := ReadAtLeastLoop_writes (m.reads.length + 1) m min []
  unfold ReadAtLeast
  generalize ReadAtLeastLoop (m.reads.length + 1) m min [] = r at h
  obtain ⟨⟨got, err⟩, m'⟩ := r
  simp only
  split_ifs <;> exact h

/-- `ReadMessage` makes no `Write` call and leaves the write script untouched. -/
theorem ReadMessage_writes (m : Medium) :
    (ReadMessage m).2.writes = m.writes ∧
    writesOf (ReadMessage m).2.trace = writesOf m.trace := by
  have h1 := ReadAtLeast_writes m 24
  unfold ReadMessage
  generalize ReadAtLeast m 24 = r1 at h1
  obtain ⟨⟨header, e1⟩, m1⟩ := r1
  cases e1 with
  | some e => exact h1
  | none =>
    simp only
    have h2 := ReadAtLeast_writes m1 (Uint32 (List.drop 12 header))
    generalize ReadAtLeast m1 (Uint32 (List.drop 12 header)) = r2 at h2
    obtain ⟨⟨got, e2⟩, m2⟩ := r2
    cases e2 with
    | some e => exact ⟨h2.1.trans h1.1, h2.2.trans h1.2⟩
    | none => exact ⟨h2.1.trans h1.1, h2.2.trans h1.2⟩

/-- On a transport whose writes report no error, `WriteMessage` returns `nil`, hands the
header and the payload to `Write`, and leaves such a transport behind. -/
theorem WriteMessage_writes (m : Medium) (msg : Message)
    (h : ∀ ev ∈ m.writes, ev.err = none) :
    WriteMessage m msg = (none, (WriteMessage m msg).2) ∧
    writesOf (WriteMessage m msg).2.trace =
      writesOf m.trace ++ [messageHeader msg, msg.Data] ∧
    ∀ ev ∈ (WriteMessage m msg).2.writes, ev.err = none := by
  obtain ⟨h1, h2, _, h4⟩ := WriteMessage_ok m msg h
  refine ⟨Prod.ext h1 rfl, ?_, h4⟩
  rw [h2, writesOf_append]
  rfl

/-- The message a successful `WriteMessage` wrote can be read off the trace: every
`Write` error makes it return an error. -/
theorem WriteMessage_nil (m : Medium) (msg : Message) (h : (WriteMessage m msg).1 = none) :
    writesOf (WriteMessage m msg).2.trace = writesOf m.trace ++ [messageHeader msg, msg.Data] := by
  have t1 := m.Write_trace (messageHeader msg)
  unfold WriteMessage at h ⊢
  simp only at h ⊢
  generalize m.Write (messageHeader msg) = w1 at t1 h
  obtain ⟨⟨n1, e1⟩, m1⟩ := w1
  cases e1 with
  | some e => simp at h
  | none =>
    simp only at h t1 ⊢
    have t2 := m1.Write_trace msg.Data
    generalize m1.Write msg.Data = w2 at t2 h
    obtain ⟨⟨n2, e2⟩, m2⟩ := w2
    cases e2 with
    | some e => simp at h
    | none =>
      simp only at t2 ⊢
      rw [t2, t1, writesOf_append, writesOf_append]
      simp [writesOf]

/-! ## The challenge signer -/

theorem sign_ok (data : List Nat) (key : RsaPrivateKey) (signature : List Nat)
    (hlen : data.length = 20) (hs : key.SignPKCS1v15 Hash.SHA1 data = (signature, none)) :
    sign data key = ((signature, none), [(Hash.SHA1, data)]) := by
  simp [sign, hlen, hs]

/-- C9. Signer length validation: for a buffer whose length is not 20 (so for lengths 0,
19, 21 and 32) `sign` returns no signature and an error without calling the PKCS#1 v1.5
signing operation; for a buffer of exactly 20 bytes it calls that operation once, on
those bytes unchanged and with the SHA-1 identifier, and returns its outcome: the same
signature when it succeeds, and when it fails no signature and an error whose cause is
the error of the operation. -/
theorem sign_length_validation (data : List Nat) (key : RsaPrivateKey) :
    (data.length ≠ 20 →
      (sign data key).1.1 = [] ∧ (sign data key).1.2 ≠ none ∧ (sign data key).2 = []) ∧
    (data.length = 20 →
      (sign data key).2 = [(Hash.SHA1, data)] ∧
      (∀ signature, key.SignPKCS1v15 Hash.SHA1 data = (signature, none) →
        (sign data key).1 = (signature, none)) ∧
      (∀ signature err, key.SignPKCS1v15 Hash.SHA1 data = (signature, some err) →
        (sign data key).1.1 = [] ∧
        ∃ e, (sign data key).1.2 = some e ∧ e.Unwrap = some err)) := by
  constructor
  · intro h
    simp [sign, h]
  · intro h
    refine ⟨?_, ?_, ?_⟩
    · unfold sign
      rw [if_neg (by simpa using h)]
      generalize key.SignPKCS1v15 Hash.SHA1 data = r
      obtain ⟨sig, e⟩ := r
      cases e <;> rfl
    · intro signature hs
      rw [sign_ok data key signature h hs]
    · intro signature err hs
      simp [sign, h, hs, Error.Unwrap]

/-- C9 at the lengths 0, 19, 21 and 32 named in the specification, and at a 20-byte
challenge with a key that signs and a key that fails. -/
theorem sign_length_validation_witness :
    ((sign [] sampleKey).1.2 ≠ none ∧ (sign [] sampleKey).2 = []) ∧
    ((sign (List.replicate 19 0) sampleKey).1.2 ≠ none ∧
      (sign (List.replicate 19 0) sampleKey).2 = []) ∧
    ((sign (List.replicate 21 0) sampleKey).1.2 ≠ none ∧
      (sign (List.replicate 21 0) sampleKey).2 = []) ∧
    ((sign (List.replicate 32 0) sampleKey).1.2 ≠ none ∧
      (sign (List.replicate 32 0) sampleKey).2 = []) ∧
    (sign sampleChallenge sampleKey).1 = (sampleChallenge.reverse, none) ∧
    (sign sampleChallenge failingKey).1.1 = [] :=
  ⟨((sign_length_validation [] sampleKey).1 (by decide)).2,
   ((sign_length_validation (List.replicate 19 0) sampleKey).1 (by decide)).2,
   ((sign_length_validation (List.replicate 21 0) sampleKey).1 (by decide)).2,
   ((sign_length_validation (List.replicate 32 0) sampleKey).1 (by decide)).2,
   ((sign_length_validation sampleChallenge sampleKey).2 (by decide)).2.1 _ rfl,
   (((sign_length_validation sampleChallenge failingKey).2 (by decide)).2.2 _ _ rfl).1⟩

/-! ## The handshake -/

/-- C5. Handshake success on signature (scenario A): when every write succeeds, the
first message read is `AUTH` with a 20-byte challenge `ch`, signing `ch` succeeds with
signature `s`, and the second message read is `CONNECT` with data `b`, `Handshake` returns
exactly `b` and no error, having signed `ch` once and written exactly two messages:
`CONNECT(0x01000000, 0x1000, identity)` and then `AUTH(2, 0, s)`. -/
theorem Handshake_signature_accepted (c : Client) (medium m1 m2 m3 m4 : Medium)
    (systemIdentityString ch s b : List Nat) (a1 a2 b1 b2 : Nat)
    (hmed : c.medium = some medium)
    (hw : ∀ ev ∈ medium.writes, ev.err = none)
    (hm1 : m1 = (WriteMessage medium (NewMessage_Connect systemIdentityString)).2)
    (hm2 : m2 = (ReadMessage m1).2)
    (hr1 : (ReadMessage m1).1 = (⟨MessageCommand_Auth, a1, a2, ch⟩, none))
    (hlen : ch.length = 20)
    (hs : c.privateKey.SignPKCS1v15 Hash.SHA1 ch = (s, none))
    (hm3 : m3 = (WriteMessage m2 (NewMessage_Auth_Signature s)).2)
    (hm4 : m4 = (ReadMessage m3).2)
    (hr2 : (ReadMessage m3).1 = (⟨MessageCommand_Connect, b1, b2, b⟩, none)) :
    (c.Handshake systemIdentityString).ret = some (b, none) ∧
    (c.Handshake systemIdentityString).signed = [(Hash.SHA1, ch)] ∧
    (c.Handshake systemIdentityString).medium = some m4 ∧
    writesOf m4.trace = writesOf medium.trace ++
      [messageHeader ⟨MessageCommand_Connect, 0x01000000, 0x1000, systemIdentityString⟩,
       systemIdentityString,
       messageHeader ⟨MessageCommand_Auth, 2, 0, s⟩, s] := by
  obtain ⟨w1, t1, hw1⟩ := WriteMessage_writes medium (NewMessage_Connect systemIdentityString) hw
  rw [← hm1] at w1 t1 hw1
  obtain ⟨rw1, rt1⟩ := ReadMessage_writes m1
  have r1 : ReadMessage m1 = ((⟨MessageCommand_Auth, a1, a2, ch⟩, none), m2) :=
    Prod.ext hr1 hm2.symm
  rw [← hm2] at rw1 rt1
  obtain ⟨w2, t2, hw2⟩ := WriteMessage_writes m2 (NewMessage_Auth_Signature s)
    (by rw [rw1]; exact hw1)
  rw [← hm3] at w2 t2 hw2
  obtain ⟨_, rt2⟩ := ReadMessage_writes m3
  have r2 : ReadMessage m3 = ((⟨MessageCommand_Connect, b1, b2, b⟩, none), m4) :=
    Prod.ext hr2 hm4.symm
  rw [← hm4] at rt2
  have hsign := sign_ok ch c.privateKey s hlen hs
  refine ⟨?_, ?_, ?_, ?_⟩
  · simp [Client.Handshake, hmed, w1, r1, hsign, w2, r2]
  · simp [Client.Handshake, hmed, w1, r1, hsign, w2, r2]
  · simp [Client.Handshake, hmed, w1, r1, hsign, w2, r2]
  · rw [rt2, t2, rt1, t1]
    simp [NewMessage_Connect, NewMessage_Auth_Signature]

/-- Scenario A of the specification: the handshake of `scenarioA` returns the banner
"device::banana". -/
theorem Handshake_signature_accepted_witness :
    (scenarioA.Handshake sampleIdentity).ret = some (sampleBanner, none) :=
  (Handshake_signature_accepted scenarioA
    (peerSends [⟨MessageCommand_Auth, 1, 0, sampleChallenge⟩,
      ⟨MessageCommand_Connect, 0x01000000, 0x1000, sampleBanner⟩])
    _ _ _ _ sampleIdentity sampleChallenge sampleChallenge.reverse sampleBanner
    1 0 0x01000000 0x1000 rfl (by simp [peerSends]) rfl rfl (by decide) (by decide) rfl
    rfl rfl (by decide)).1

/-- The handshake up to the answer to the public-key round: when every write succeeds,
the first message read is `AUTH` with a 20-byte challenge that is signed successfully,
the second message read is `AUTH`, the encoder returns `pub` and a third message `msg3` is
read, the outcome is decided by the command of `msg3` alone, and exactly three messages
were written. -/
theorem Handshake_publickey_round (c : Client) (medium m1 m2 m3 m4 m5 m6 : Medium)
    (systemIdentityString ch s d2 pub : List Nat) (a1 a2 b1 b2 : Nat) (msg3 : Message)
    (hmed : c.medium = some medium)
    (hw : ∀ ev ∈ medium.writes, ev.err = none)
    (hm1 : m1 = (WriteMessage medium (NewMessage_Connect systemIdentityString)).2)
    (hm2 : m2 = (ReadMessage m1).2)
    (hr1 : (ReadMessage m1).1 = (⟨MessageCommand_Auth, a1, a2, ch⟩, none))
    (hlen : ch.length = 20)
    (hs : c.privateKey.SignPKCS1v15 Hash.SHA1 ch = (s, none))
    (hm3 : m3 = (WriteMessage m2 (NewMessage_Auth_Signature s)).2)
    (hm4 : m4 = (ReadMessage m3).2)
    (hr2 : (ReadMessage m3).1 = (⟨MessageCommand_Auth, b1, b2, d2⟩, none))
    (hpub : encodePublicKey c.privateKey.PublicKey = some pub)
    (hm5 : m5 = (WriteMessage m4 (NewMessage_Auth_PublicKey pub)).2)
    (hm6 : m6 = (ReadMessage m5).2)
    (hr3 : (ReadMessage m5).1 = (msg3, none)) :
    (c.Handshake systemIdentityString).ret =
      some (if msg3.Command = MessageCommand_Connect then (msg3.Data, none)
        else ([], some (Error.errorString "Device did not accept our key"))) ∧
    (c.Handshake systemIdentityString).signed = [(Hash.SHA1, ch)] ∧
    (c.Handshake systemIdentityString).medium = some m6 ∧
    writesOf m6.trace = writesOf medium.trace ++
      [messageHeader ⟨MessageCommand_Connect, 0x01000000, 0x1000, systemIdentityString⟩,
       systemIdentityString,
       messageHeader ⟨MessageCommand_Auth, 2, 0, s⟩, s,
       messageHeader ⟨MessageCommand_Auth, 3, 0, pub⟩, pub] := by
  obtain ⟨w1, t1, hw1⟩ := WriteMessage_writes medium (NewMessage_Connect systemIdentityString) hw
  rw [← hm1] at w1 t1 hw1
  obtain ⟨rw1, rt1⟩ := ReadMessage_writes m1
  have r1 : ReadMessage m1 = ((⟨MessageCommand_Auth, a1, a2, ch⟩, none), m2) :=
    Prod.ext hr1 hm2.symm
  rw [← hm2] at rw1 rt1
  obtain ⟨w2, t2, hw2⟩ := WriteMessage_writes m2 (NewMessage_Auth_Signature s)
    (by rw [rw1]; exact hw1)
  rw [← hm3] at w2 t2 hw2
  obtain ⟨rw2, rt2⟩ := ReadMessage_writes m3
  have r2 : ReadMessage m3 = ((⟨MessageCommand_Auth, b1, b2, d2⟩, none), m4) :=
    Prod.ext hr2 hm4.symm
  rw [← hm4] at rw2 rt2
  obtain ⟨w3, t3, _⟩ := WriteMessage_writes m4 (NewMessage_Auth_PublicKey pub)
    (by rw [rw2]; exact hw2)
  rw [← hm5] at w3 t3
  obtain ⟨_, rt3⟩ := ReadMessage_writes m5
  have r3 : ReadMessage m5 = ((msg3, none), m6) := Prod.ext hr3 hm6.symm
  rw [← hm6] at rt3
  have hsign := sign_ok ch c.privateKey s hlen hs
  have hne : MessageCommand_Auth ≠ MessageCommand_Connect := by decide
  refine ⟨?_, ?_, ?_, ?_⟩
  · by_cases h3 : msg3.Command = MessageCommand_Connect <;>
      simp [Client.Handshake, hmed, w1, r1, hsign, w2, r2, hne, hpub, w3, r3, h3]
  · by_cases h3 : msg3.Command = MessageCommand_Connect <;>
      simp [Client.Handshake, hmed, w1, r1, hsign, w2, r2, hne, hpub, w3, r3, h3]
  · by_cases h3 : msg3.Command = MessageCommand_Connect <;>
      simp [Client.Handshake, hmed, w1, r1, hsign, w2, r2, hne, hpub, w3, r3, h3]
  · rw [rt3, t3, rt2, t2, rt1, t1]
    simp [NewMessage_Connect, NewMessage_Auth_Signature, NewMessage_Auth_PublicKey]

/-- The encoder accepts the public half of `sampleKey`. -/
theorem encodePublicKey_sampleKey :
    encodePublicKey sampleKey.PublicKey =
      some ((encodePublicKey sampleKey.PublicKey).getD []) := by
  obtain ⟨_, out, _, _, _, h, _⟩ := encodePublicKey_odd sampleKey.PublicKey (by decide)
    (lt_of_lt_of_le (by decide : 3 < 2 ^ 2) (Nat.pow_le_pow_right (by decide) (by decide)))
  rw [h]
  rfl

/-- C6. Handshake success on public key (scenario B): when every write succeeds, the
first message read is `AUTH` with a 20-byte challenge that is signed successfully, the
second message read is `AUTH` with any arguments and any payload `d2`, and the third
message, read after the key record `pub` returned by `encodePublicKey` was sent, is
`CONNECT` with data `b`, `Handshake` returns exactly `b` and no error; its third written
message is `AUTH(3, 0, pub)`; the result does not mention `d2`. -/
theorem Handshake_publickey_accepted (c : Client) (medium m1 m2 m3 m4 m5 m6 : Medium)
    (systemIdentityString ch s d2 pub b : List Nat) (a1 a2 b1 b2 c1 c2 : Nat)
    (hmed : c.medium = some medium)
    (hw : ∀ ev ∈ medium.writes, ev.err = none)
    (hm1 : m1 = (WriteMessage medium (NewMessage_Connect systemIdentityString)).2)
    (hm2 : m2 = (ReadMessage m1).2)
    (hr1 : (ReadMessage m1).1 = (⟨MessageCommand_Auth, a1, a2, ch⟩, none))
    (hlen : ch.length = 20)
    (hs : c.privateKey.SignPKCS1v15 Hash.SHA1 ch = (s, none))
    (hm3 : m3 = (WriteMessage m2 (NewMessage_Auth_Signature s)).2)
    (hm4 : m4 = (ReadMessage m3).2)
    (hr2 : (ReadMessage m3).1 = (⟨MessageCommand_Auth, b1, b2, d2⟩, none))
    (hpub : encodePublicKey c.privateKey.PublicKey = some pub)
    (hm5 : m5 = (WriteMessage m4 (NewMessage_Auth_PublicKey pub)).2)
    (hm6 : m6 = (ReadMessage m5).2)
    (hr3 : (ReadMessage m5).1 = (⟨MessageCommand_Connect, c1, c2, b⟩, none)) :
    (c.Handshake systemIdentityString).ret = some (b, none) ∧
    (c.Handshake systemIdentityString).medium = some m6 ∧
    writesOf m6.trace = writesOf medium.trace ++
      [messageHeader ⟨MessageCommand_Connect, 0x01000000, 0x1000, systemIdentityString⟩,
       systemIdentityString,
       messageHeader ⟨MessageCommand_Auth, 2, 0, s⟩, s,
       messageHeader ⟨MessageCommand_Auth, 3, 0, pub⟩, pub] := by
  obtain ⟨h1, _, h3, h4⟩ := Handshake_publickey_round c medium m1 m2 m3 m4 m5 m6
    systemIdentityString ch s d2 pub a1 a2 b1 b2 _ hmed hw hm1 hm2 hr1 hlen hs hm3 hm4 hr2
    hpub hm5 hm6 hr3
  exact ⟨by simpa using h1, h3, h4⟩

/-- Scenario B of the specification: the handshake of `scenarioB` returns the banner
"device::banana". -/
theorem Handshake_publickey_accepted_witness :
    (scenarioB.Handshake sampleIdentity).ret = some (sampleBanner, none) :=
  (Handshake_publickey_accepted scenarioB
    (peerSends [⟨MessageCommand_Auth, 1, 0, sampleChallenge⟩,
      ⟨MessageCommand_Auth, 1, 0, [9, 9, 9]⟩,
      ⟨MessageCommand_Connect, 0x01000000, 0x1000, sampleBanner⟩])
    _ _ _ _ _ _ sampleIdentity sampleChallenge sampleChallenge.reverse [9, 9, 9]
    ((encodePublicKey sampleKey.PublicKey).getD []) sampleBanner
    1 0 1 0 0x01000000 0x1000 rfl (by simp [peerSends]) rfl rfl (by decide) (by decide) rfl
    rfl rfl (by decide) encodePublicKey_sampleKey rfl rfl (by decide)).1

/-- C7. Rejection (scenario C): when every write succeeds, the first two messages read
are `AUTH` (the first with a 20-byte challenge that is signed successfully) and the third
message, read after the key record was sent, has a command other than `CONNECT`,
`Handshake` returns no banner and the rejection error "Device did not accept our key";
after the public-key round it returns a banner if and only if the command of the third
message is `CONNECT`. -/
theorem Handshake_rejected (c : Client) (medium m1 m2 m3 m4 m5 m6 : Medium)
    (systemIdentityString ch s d2 pub : List Nat) (a1 a2 b1 b2 : Nat) (msg3 : Message)
    (hmed : c.medium = some medium)
    (hw : ∀ ev ∈ medium.writes, ev.err = none)
    (hm1 : m1 = (WriteMessage medium (NewMessage_Connect systemIdentityString)).2)
    (hm2 : m2 = (ReadMessage m1).2)
    (hr1 : (ReadMessage m1).1 = (⟨MessageCommand_Auth, a1, a2, ch⟩, none))
    (hlen : ch.length = 20)
    (hs : c.privateKey.SignPKCS1v15 Hash.SHA1 ch = (s, none))
    (hm3 : m3 = (WriteMessage m2 (NewMessage_Auth_Signature s)).2)
    (hm4 : m4 = (ReadMessage m3).2)
    (hr2 : (ReadMessage m3).1 = (⟨MessageCommand_Auth, b1, b2, d2⟩, none))
    (hpub : encodePublicKey c.privateKey.PublicKey = some pub)
    (hm5 : m5 = (WriteMessage m4 (NewMessage_Auth_PublicKey pub)).2)
    (hm6 : m6 = (ReadMessage m5).2)
    (hr3 : (ReadMessage m5).1 = (msg3, none)) :
    (msg3.Command ≠ MessageCommand_Connect →
      (c.Handshake systemIdentityString).ret =
        some ([], some (Error.errorString "Device did not accept our key"))) ∧
    ((∃ banner, (c.Handshake systemIdentityString).ret = some (banner, none)) ↔
      msg3.Command = MessageCommand_Connect) := by
  obtain ⟨h1, _⟩ := Handshake_publickey_round c medium m1 m2 m3 m4 m5 m6
    systemIdentityString ch s d2 pub a1 a2 b1 b2 msg3 hmed hw hm1 hm2 hr1 hlen hs hm3 hm4 hr2
    hpub hm5 hm6 hr3
  rw [h1]
  constructor
  · intro hne
    rw [if_neg hne]
  · by_cases h3 : msg3.Command = MessageCommand_Connect
    · simp [h3]
    · simp [h3]

/-- Scenario C of the specification: the handshake of `scenarioC`, whose peer answers the
key record with `CLOSE`, fails with the rejection error. -/
theorem Handshake_rejected_witness :
    (scenarioC.Handshake sampleIdentity).ret =
      some ([], some (Error.errorString "Device did not accept our key")) :=
  (Handshake_rejected scenarioC
    (peerSends [⟨MessageCommand_Auth, 1, 0, sampleChallenge⟩,
      ⟨MessageCommand_Auth, 1, 0, sampleChallenge⟩,
      ⟨MessageCommand_Close, 0, 0, []⟩])
    _ _ _ _ _ _ sampleIdentity sampleChallenge sampleChallenge.reverse sampleChallenge
    ((encodePublicKey sampleKey.PublicKey).getD []) 1 0 1 0 ⟨MessageCommand_Close, 0, 0, []⟩
    rfl (by simp [peerSends]) rfl rfl (by decide) (by decide) rfl
    rfl rfl (by decide) encodePublicKey_sampleKey rfl rfl (by decide)).1 (by decide)

/-- C8. Protocol violation is fatal. After the `CONNECT` message was written and a first
response `msg1` was read: if the command of `msg1` is not `AUTH` (be it `CONNECT`),
`Handshake` returns no banner and the error "Expected AUTH response to CONNECT request",
has not called the signer, and has written nothing after the `CONNECT` message. If it is `AUTH`, the challenge is signed, the
`AUTH` message with the signature is written, and the second response `msg2` is neither
`CONNECT` nor `AUTH`, `Handshake` returns no banner and a non-nil error, and has written
no third message. -/
theorem Handshake_protocol_violation (c : Client) (medium m1 m2 : Medium)
    (systemIdentityString : List Nat) (msg1 : Message)
    (hmed : c.medium = some medium)
    (hw1 : (WriteMessage medium (NewMessage_Connect systemIdentityString)).1 = none)
    (hm1 : m1 = (WriteMessage medium (NewMessage_Connect systemIdentityString)).2)
    (hm2 : m2 = (ReadMessage m1).2)
    (hr1 : (ReadMessage m1).1 = (msg1, none)) :
    (msg1.Command ≠ MessageCommand_Auth →
      (c.Handshake systemIdentityString).ret =
        some ([], some (Error.errorString "Expected AUTH response to CONNECT request")) ∧
      (c.Handshake systemIdentityString).signed = [] ∧
      (c.Handshake systemIdentityString).medium = some m2 ∧
      writesOf m2.trace = writesOf medium.trace ++
        [messageHeader ⟨MessageCommand_Connect, 0x01000000, 0x1000, systemIdentityString⟩,
         systemIdentityString]) ∧
    (msg1.Command = MessageCommand_Auth →
      ∀ (s : List Nat) (m3 m4 : Medium) (msg2 : Message),
        msg1.Data.length = 20 →
        c.privateKey.SignPKCS1v15 Hash.SHA1 msg1.Data = (s, none) →
        (WriteMessage m2 (NewMessage_Auth_Signature s)).1 = none →
        m3 = (WriteMessage m2 (NewMessage_Auth_Signature s)).2 →
        m4 = (ReadMessage m3).2 →
        (ReadMessage m3).1 = (msg2, none) →
        msg2.Command ≠ MessageCommand_Connect → msg2.Command ≠ MessageCommand_Auth →
        (c.Handshake systemIdentityString).ret = some ([], some (Error.errorString
          "Expected CONNECT or AUTH response to AUTH+signature request: %!w(<nil>)")) ∧
        (c.Handshake systemIdentityString).medium = some m4 ∧
        writesOf m4.trace = writesOf medium.trace ++
          [messageHeader ⟨MessageCommand_Connect, 0x01000000, 0x1000, systemIdentityString⟩,
           systemIdentityString,
           messageHeader ⟨MessageCommand_Auth, 2, 0, s⟩, s]) := by
  have w1 : WriteMessage medium (NewMessage_Connect systemIdentityString) = (none, m1) :=
    Prod.ext hw1 hm1.symm
  have t1 := WriteMessage_nil medium (NewMessage_Connect systemIdentityString) hw1
  rw [← hm1] at t1
  obtain ⟨_, rt1⟩ := ReadMessage_writes m1
  have r1 : ReadMessage m1 = ((msg1, none), m2) := Prod.ext hr1 hm2.symm
  rw [← hm2] at rt1
  constructor
  · intro hne
    refine ⟨?_, ?_, ?_, ?_⟩
    · simp [Client.Handshake, hmed, w1, r1, hne]
    · simp [Client.Handshake, hmed, w1, r1, hne]
    · simp [Client.Handshake, hmed, w1, r1, hne]
    · rw [rt1, t1]
      simp [NewMessage_Connect]
  · intro hauth s m3 m4 msg2 hlen hs hw2 hm3 hm4 hr2 hnc hna
    have w2 : WriteMessage m2 (NewMessage_Auth_Signature s) = (none, m3) :=
      Prod.ext hw2 hm3.symm
    have t2 := WriteMessage_nil m2 (NewMessage_Auth_Signature s) hw2
    rw [← hm3] at t2
    obtain ⟨_, rt2⟩ := ReadMessage_writes m3
    have r2 : ReadMessage m3 = ((msg2, none), m4) := Prod.ext hr2 hm4.symm
    rw [← hm4] at rt2
    have hsign := sign_ok msg1.Data c.privateKey s hlen hs
    refine ⟨?_, ?_, ?_⟩
    · simp [Client.Handshake, hmed, w1, r1, hauth, hsign, w2, r2, hnc, hna]
    · simp [Client.Handshake, hmed, w1, r1, hauth, hsign, w2, r2, hnc, hna]
    · rw [rt2, t2, rt1, t1]
      simp [NewMessage_Connect, NewMessage_Auth_Signature]

/-- Scenario D of the specification (the peer answers `CONNECT` with `OPEN`): the
handshake fails without signing; and when the peer answers the signature with `OKAY` the
handshake fails as well. -/
theorem Handshake_protocol_violation_witness :
    ((scenarioD.Handshake sampleIdentity).ret =
        some ([], some (Error.errorString "Expected AUTH response to CONNECT request")) ∧
      (scenarioD.Handshake sampleIdentity).signed = []) ∧
    (scenarioOkay.Handshake sampleIdentity).ret = some ([], some (Error.errorString
      "Expected CONNECT or AUTH response to AUTH+signature request: %!w(<nil>)")) := by
  have ha := (Handshake_protocol_violation scenarioD
    (peerSends [⟨MessageCommand_Open, 0, 0, []⟩]) _ _ sampleIdentity
    ⟨MessageCommand_Open, 0, 0, []⟩ rfl (by decide) rfl rfl (by decide)).1 (by decide)
  have hb := (Handshake_protocol_violation scenarioOkay
    (peerSends [⟨MessageCommand_Auth, 1, 0, sampleChallenge⟩,
      ⟨MessageCommand_Okay, 0, 0, []⟩]) _ _ sampleIdentity
    ⟨MessageCommand_Auth, 1, 0, sampleChallenge⟩ rfl (by decide) rfl rfl (by decide)).2
    (by decide) sampleChallenge.reverse _ _ ⟨MessageCommand_Okay, 0, 0, []⟩
    (by decide) rfl (by decide) rfl rfl (by decide) (by decide) (by decide)
  exact ⟨⟨ha.1, ha.2.1⟩, hb.1⟩

/-! ## Write failures -/

/-- The result of `WriteMessage` in terms of its two `Write` calls: an error of the header
write ends the call, otherwise the payload write decides; the byte counts play no role. -/
theorem WriteMessage_cases (medium : Medium) (msg : Message) :
    (∀ err, (medium.Write (messageHeader msg)).1.2 = some err →
      WriteMessage medium msg =
        (some (Error.wrapError "Unable to write message header (24 bytes): " err),
          (medium.Write (messageHeader msg)).2)) ∧
    ((medium.Write (messageHeader msg)).1.2 = none →
      (∀ err, ((medium.Write (messageHeader msg)).2.Write msg.Data).1.2 = some err →
        WriteMessage medium msg =
          (some (Error.wrapError
            ("Unable to write message body (" ++ toString msg.Data.length ++ " bytes): ") err),
            ((medium.Write (messageHeader msg)).2.Write msg.Data).2)) ∧
      (((medium.Write (messageHeader msg)).2.Write msg.Data).1.2 = none →
        WriteMessage medium msg =
          (none, ((medium.Write (messageHeader msg)).2.Write msg.Data).2))) := by
  unfold WriteMessage
  simp only
  generalize medium.Write (messageHeader msg) = w1
  obtain ⟨⟨n1, e1⟩, m1⟩ := w1
  cases e1 with
  | some e => simp
  | none =>
    simp only
    generalize m1.Write msg.Data = w2
    obtain ⟨⟨n2, e2⟩, m2⟩ := w2
    cases e2 with
    | some e => simp
    | none => simp

/-- On a transport that reports an error with every short write (the contract of
`io.Writer`), a `Write` that reports fewer bytes than it was given reports an error. -/
theorem Medium.Write_conforming (m : Medium) (b : List Nat)
    (h : ∀ ev ∈ m.writes, ev.short ≠ 0 → ev.err ≠ none) :
    ((m.Write b).1.1 < b.length → (m.Write b).1.2 ≠ none) ∧
    ∀ ev ∈ (m.Write b).2.writes, ev.short ≠ 0 → ev.err ≠ none := by
  unfold Medium.Write
  cases hw : m.writes with
  | nil => simp
  | cons ev rest =>
    rw [hw] at h
    simp only
    refine ⟨fun hlt => h ev (List.mem_cons_self _ _) (by omega), ?_⟩
    exact fun e he => h e (List.mem_cons_of_mem _ he)

/-- C11 (amended). `WriteMessage` on write failure: for every message and every
transport, if the header write reports an error, `WriteMessage` returns an error wrapping
it and the payload write is not attempted; if the header write reports no error and the
payload write reports one, `WriteMessage` returns an error wrapping that one; otherwise it
returns `nil`, whatever byte counts were reported. At most two `Write` calls are made, the
header and then the payload, each slice handed over once: nothing is retried or resumed.
On a transport that reports an error with every short write, an incomplete write
therefore makes `WriteMessage` fail. -/
theorem WriteMessage_write_failure (medium : Medium) (msg : Message) :
    (∀ err, (medium.Write (messageHeader msg)).1.2 = some err →
      (WriteMessage medium msg).1 =
        some (Error.wrapError "Unable to write message header (24 bytes): " err) ∧
      (WriteMessage medium msg).2.trace = medium.trace ++
        [Op.Write (messageHeader msg) (medium.Write (messageHeader msg)).1.1 (some err)]) ∧
    ((medium.Write (messageHeader msg)).1.2 = none →
      (WriteMessage medium msg).2.trace = medium.trace ++
        [Op.Write (messageHeader msg) (medium.Write (messageHeader msg)).1.1 none,
         Op.Write msg.Data ((medium.Write (messageHeader msg)).2.Write msg.Data).1.1
           ((medium.Write (messageHeader msg)).2.Write msg.Data).1.2] ∧
      (∀ err, ((medium.Write (messageHeader msg)).2.Write msg.Data).1.2 = some err →
        (WriteMessage medium msg).1 = some (Error.wrapError
          ("Unable to write message body (" ++ toString msg.Data.length ++ " bytes): ") err)) ∧
      (((medium.Write (messageHeader msg)).2.Write msg.Data).1.2 = none →
        (WriteMessage medium msg).1 = none)) ∧
    ((∀ ev ∈ medium.writes, ev.short ≠ 0 → ev.err ≠ none) →
      ((medium.Write (messageHeader msg)).1.1 < (messageHeader msg).length ∨
        ((medium.Write (messageHeader msg)).1.2 = none ∧
          ((medium.Write (messageHeader msg)).2.Write msg.Data).1.1 < msg.Data.length)) →
      (WriteMessage medium msg).1 ≠ none) := by
  obtain ⟨c1, c2⟩ := WriteMessage_cases medium msg
  have t1 := medium.Write_trace (messageHeader msg)
  have t2 := (medium.Write (messageHeader msg)).2.Write_trace msg.Data
  refine ⟨?_, ?_, ?_⟩
  · intro err he
    rw [c1 err he]
    refine ⟨rfl, ?_⟩
    rw [t1, he]
  · intro h1
    obtain ⟨c3, c4⟩ := c2 h1
    refine ⟨?_, ?_, ?_⟩
    · cases h2 : ((medium.Write (messageHeader msg)).2.Write msg.Data).1.2 with
      | none =>
        rw [c4 h2]
        simp only
        rw [t2, t1, h1, h2, List.append_assoc]
        rfl
      | some e =>
        rw [c3 e h2]
        simp only
        rw [t2, t1, h1, h2, List.append_assoc]
        rfl
    · intro err he
      rw [c3 err he]
    · intro he
      rw [c4 he]
  · intro hconf hshort
    obtain ⟨k1, hconf'⟩ := medium.Write_conforming (messageHeader msg) hconf
    obtain ⟨k2, _⟩ := (medium.Write (messageHeader msg)).2.Write_conforming msg.Data hconf'
    rcases hshort with h | ⟨h1, h2⟩
    · obtain ⟨e, he⟩ := Option.ne_none_iff_exists'.mp (k1 h)
      rw [c1 e he]
      simp
    · obtain ⟨e, he⟩ := Option.ne_none_iff_exists'.mp (k2 h2)
      rw [(c2 h1).1 e he]
      simp

/-- C11 (amended) on `brokenWriter`, whose first `Write` reports "broken pipe": the
error is wrapped and the only call made is the header write. -/
theorem WriteMessage_write_failure_witness :
    (WriteMessage brokenWriter sampleMessage).1 =
      some (Error.wrapError "Unable to write message header (24 bytes): "
        (Error.errorString "broken pipe")) ∧
    (WriteMessage brokenWriter sampleMessage).2.trace = brokenWriter.trace ++
      [Op.Write (messageHeader sampleMessage)
        (brokenWriter.Write (messageHeader sampleMessage)).1.1
        (some (Error.errorString "broken pipe"))] :=
  (WriteMessage_write_failure brokenWriter sampleMessage).1 _ rfl

/-- C11 as stated fails: on `shortWriter` the header write reports 23 of 24 bytes and no
error, and `WriteMessage` returns `nil`. -/
theorem WriteMessage_short_write_counterexample :
    (shortWriter.Write (messageHeader sampleMessage)).1 = (23, none) ∧
    (messageHeader sampleMessage).length = 24 ∧
    (WriteMessage shortWriter sampleMessage).1 = none := by
  decide

/-! ## The reader never looks at the CRC and magic words -/

/-- On an error-free stream that ends inside the payload, `ReadMessage` returns the header
words, the payload bytes that arrived padded with zeros, and the short-read error. -/
theorem ReadMessage_short_body_eq (medium : Medium) (hclean : ErrorFree medium.reads)
    (h24 : 24 ≤ (pending medium.reads).length)
    (hlen : (pending medium.reads).length <
      24 + Uint32 (((pending medium.reads).take 24).drop 12)) :
    (ReadMessage medium).1 =
      ({ Command := Uint32 ((pending medium.reads).take 24),
         Arg1 := Uint32 (((pending medium.reads).take 24).drop 4),
         Arg2 := Uint32 (((pending medium.reads).take 24).drop 8),
         Data := (pending medium.reads).drop 24 ++ List.replicate
           (Uint32 (((pending medium.reads).take 24).drop 12) -
             ((pending medium.reads).drop 24).length) 0 },
       some (Error.wrapError
         ("Unable to read message body (" ++
           toString (Uint32 (((pending medium.reads).take 24).drop 12)) ++ " bytes): ")
         (if (pending medium.reads).drop 24 = [] then Error.EOF
          else Error.ErrUnexpectedEOF))) := by
  obtain ⟨a1, a2, a3⟩ := ReadAtLeast_enough medium 24 hclean h24
  unfold ReadMessage
  generalize ReadAtLeast medium 24 = r1 at a1 a2 a3
  obtain ⟨⟨header, err1⟩, m1⟩ := r1
  simp only [Prod.mk.injEq] at a1
  obtain ⟨rfl, rfl⟩ := a1
  simp only at a2 a3 ⊢
  obtain ⟨b1, _⟩ := ReadAtLeast_short m1
    (Uint32 (((pending medium.reads).take 24).drop 12)) a3
    (by rw [a2, List.length_drop]; omega)
  generalize ReadAtLeast m1 (Uint32 (((pending medium.reads).take 24).drop 12)) = r2 at b1
  obtain ⟨⟨got, err2⟩, m2⟩ := r2
  simp only [Prod.mk.injEq] at b1
  obtain ⟨rfl, rfl⟩ := b1
  rw [a2]
  simp

/-- The header words `ReadMessage` decodes lie before offset 16. -/
theorem Uint32_take_16 (s : List Nat) (k : Nat) (hk : k + 4 ≤ 16) :
    Uint32 ((s.take 24).drop k) = Uint32 ((s.take 16).drop k) := by
  have h : ∀ i, i < 4 → ((s.take 24).drop k)[i]? = ((s.take 16).drop k)[i]? := by
    intro i hi
    rw [List.getElem?_drop, List.getElem?_drop, List.getElem?_take_of_lt (by omega),
      List.getElem?_take_of_lt (by omega)]
  simp only [Uint32, List.getD_eq_getElem?_getD, h 0 (by omega), h 1 (by omega),
    h 2 (by omega), h 3 (by omega)]

/-- On a finite stream of bytes, in any chunking, `ReadMessage` returns what
`decodeStream` computes from the bytes before offset 16 and from offset 24 on. -/
theorem ReadMessage_decodeStream (medium : Medium) (hclean : ErrorFree medium.reads) :
    (ReadMessage medium).1 = decodeStream (pending medium.reads) := by
  have u0 := Uint32_take_16 (pending medium.reads) 0 (by omega)
  have u4 := Uint32_take_16 (pending medium.reads) 4 (by omega)
  have u8 := Uint32_take_16 (pending medium.reads) 8 (by omega)
  have u12 := Uint32_take_16 (pending medium.reads) 12 (by omega)
  simp only [List.drop_zero] at u0
  unfold decodeStream
  by_cases h24 : (pending medium.reads).length < 24
  · rw [if_pos h24]
    have h2 := ReadMessage_short_header medium hclean h24
    obtain ⟨a1, _⟩ := ReadAtLeast_short medium 24 hclean h24
    unfold ReadMessage at h2 ⊢
    generalize ReadAtLeast medium 24 = r1 at a1 h2
    obtain ⟨⟨header, err1⟩, m1⟩ := r1
    simp only [Prod.mk.injEq] at a1
    obtain ⟨rfl, rfl⟩ := a1
    rfl
  · rw [if_neg h24]
    simp only
    by_cases hlen : 24 + Uint32 (((pending medium.reads).take 16).drop 12) ≤
        (pending medium.reads).length
    · rw [if_pos hlen]
      obtain ⟨h1, _⟩ := ReadMessage_ok medium hclean (by omega) (by rw [u12]; exact hlen)
      rw [h1, u0, u4, u8, u12]
    · rw [if_neg hlen]
      have h1 := ReadMessage_short_body_eq medium hclean (by omega) (by rw [u12]; omega)
      rw [h1, u0, u4, u8, u12]

/-- The stream made of the first four header words of a message, any eight bytes in
place of the CRC and magic words, and the payload, decodes to the message. -/
theorem decodeStream_any_checksum (msg : Message) (junk : List Nat)
    (hwf : msg.WF) (hlen : msg.Data.length < 2 ^ 32) (hjunk : junk.length = 8) :
    decodeStream ((messageHeader msg).take 16 ++ junk ++ msg.Data) = (msg, none) := by
  obtain ⟨hc, ha1, ha2, _⟩ := hwf
  have h16 : ((messageHeader msg).take 16).length = 16 := by
    rw [List.length_take, messageHeader_length]
    rfl
  have htake : ((messageHeader msg).take 16 ++ junk ++ msg.Data).take 16 =
      (messageHeader msg).take 16 := by
    rw [List.append_assoc, List.take_left' h16]
  have hdrop : ((messageHeader msg).take 16 ++ junk ++ msg.Data).drop 24 = msg.Data := by
    rw [List.drop_left' (by rw [List.length_append, h16, hjunk])]
  have htot : ((messageHeader msg).take 16 ++ junk ++ msg.Data).length =
      24 + msg.Data.length := by
    rw [List.length_append, List.length_append, h16, hjunk]
  have v : ∀ k, k + 4 ≤ 16 → Uint32 (((messageHeader msg).take 16).drop k) =
      Uint32 ((messageHeader msg).drop k) := by
    intro k hk
    have h1 := Uint32_take_16 (messageHeader msg) k hk
    rw [List.take_of_length_le (by rw [messageHeader_length])] at h1
    exact h1.symm
  obtain ⟨u0, u4, u8, u12⟩ := Uint32_messageHeader msg
  rw [Nat.mod_eq_of_lt hc] at u0
  rw [Nat.mod_eq_of_lt ha1] at u4
  rw [Nat.mod_eq_of_lt ha2] at u8
  rw [Nat.mod_eq_of_lt hlen] at u12
  have v0 := v 0 (by omega)
  simp only [List.drop_zero] at v0
  unfold decodeStream
  rw [if_neg (by rw [htot]; omega)]
  simp only [htake, hdrop, htot, v0, v 4 (by omega), v 8 (by omega), v 12 (by omega),
    u0, u4, u8, u12, le_refl, if_true, List.take_length]

/-- C12. The reader does not validate CRC or magic: two finite input streams of the same
length that agree on the bytes before offset 16 and from offset 24 on, that is, everywhere
except in the CRC and magic words of the header, make `ReadMessage` return the same error
status and the same `Command`, `Arg1`, `Arg2` and `Data`, whatever their chunking. In
particular a stream carrying the first four header words of a message, any eight bytes in
place of its CRC and magic, and its payload, is accepted and decoded to that message. -/
theorem ReadMessage_ignores_crc_magic (r1 r2 : Medium)
    (h1 : ErrorFree r1.reads) (h2 : ErrorFree r2.reads)
    (hlen : (pending r1.reads).length = (pending r2.reads).length)
    (hpre : (pending r1.reads).take 16 = (pending r2.reads).take 16)
    (hpost : (pending r1.reads).drop 24 = (pending r2.reads).drop 24) :
    (ReadMessage r1).1 = (ReadMessage r2).1 ∧
    ∀ (msg : Message) (junk : List Nat), msg.WF → msg.Data.length < 2 ^ 32 →
      junk.length = 8 →
      pending r1.reads = (messageHeader msg).take 16 ++ junk ++ msg.Data →
      (ReadMessage r1).1 = (msg, none) := by
  constructor
  · rw [ReadMessage_decodeStream r1 h1, ReadMessage_decodeStream r2 h2]
    have hnil : (pending r1.reads = []) = (pending r2.reads = []) := by
      rw [← List.length_eq_zero, ← List.length_eq_zero, hlen]
    unfold decodeStream
    simp only [hlen, hpre, hpost, hnil]
  · intro msg junk hwf hl hj hs
    rw [ReadMessage_decodeStream r1 h1, hs]
    exact decodeStream_any_checksum msg junk hwf hl hj

/-- C12 on two streams carrying `OKAY(1, 2)` with payload `[7, 8, 9]`: the first with the
CRC and magic words `WriteMessage` computes, the second with eight zero bytes instead and
another chunking. Both are read as the same message. -/
theorem ReadMessage_ignores_crc_magic_witness :
    (ReadMessage (peerSends [sampleMessage])).1 =
      (ReadMessage ⟨[⟨(messageHeader sampleMessage).take 16, none⟩,
        ⟨[0, 0, 0, 0, 0, 0, 0, 0, 7], none⟩, ⟨[8, 9], none⟩], [], [], [], []⟩).1 :=
  (ReadMessage_ignores_crc_magic (peerSends [sampleMessage])
    ⟨[⟨(messageHeader sampleMessage).take 16, none⟩,
      ⟨[0, 0, 0, 0, 0, 0, 0, 0, 7], none⟩, ⟨[8, 9], none⟩], [], [], [], []⟩
    (by simp [ErrorFree, peerSends, wireChunk]) (by simp [ErrorFree])
    (by decide) (by decide) (by decide)).1

/-! ## Deadlines -/

theorem Medium.Read_trace (m : Medium) (k : Nat) :
    ∃ ops, (m.Read k).2.trace = m.trace ++ ops ∧ ∀ op ∈ ops, op.isRead = true := by
  cases hr : m.reads with
  | nil =>
    exact ⟨[Op.Read k [] (some Error.EOF)], by simp [Medium.Read, hr], by simp [Op.isRead]⟩
  | cons ev rest =>
    by_cases h : ev.data.length ≤ k
    · exact ⟨[Op.Read k ev.data ev.err], by simp [Medium.Read, hr, h], by simp [Op.isRead]⟩
    · exact ⟨[Op.Read k (ev.data.take k) none], by simp [Medium.Read, hr, h],
        by simp [Op.isRead]⟩

theorem ReadAtLeastLoop_trace (fuel : Nat) :
    ∀ (m : Medium) (min : Nat) (got : List Nat),
      ∃ ops, (ReadAtLeastLoop fuel m min got).2.trace = m.trace ++ ops ∧
        ∀ op ∈ ops, op.isRead = true := by
  induction fuel with
  | zero => intro m min got; exact ⟨[], by simp [ReadAtLeastLoop], by simp⟩
  | succ fuel ih =>
    intro m min got
    simp only [ReadAtLeastLoop]
    by_cases hlt : got.length < min
    · rw [if_pos hlt]
      obtain ⟨ops1, h1, h2⟩ := m.Read_trace (min - got.length)
      generalize m.Read (min - got.length) = r at h1
      obtain ⟨⟨bs, e⟩, m'⟩ := r
      cases e with
      | none =>
        obtain ⟨ops2, i1, i2⟩ := ih m' min (got ++ bs)
        refine ⟨ops1 ++ ops2, ?_, ?_⟩
        · simp only at h1 ⊢
          rw [i1, h1, List.append_assoc]
        · intro op hop
          rcases List.mem_append.mp hop with h | h
          · exact h2 op h
          · exact i2 op h
      | some e => exact ⟨ops1, h1, h2⟩
    · rw [if_neg hlt]
      exact ⟨[], by simp, by simp⟩

theorem ReadAtLeast_trace (m : Medium) (min : Nat) :
    ∃ ops, (ReadAtLeast m min).2.trace = m.trace ++ ops ∧ ∀ op ∈ ops, op.isRead = true := by
  have h := ReadAtLeastLoop_trace (m.reads.length + 1) m min []
  unfold ReadAtLeast
  generalize ReadAtLeastLoop (m.reads.length + 1) m min [] = r at h
  obtain ⟨⟨got, err⟩, m'⟩ := r
  simp only
  split_ifs <;> exact h

/-- The calls `ReadMessage` makes on the transport are `Read` calls. -/
theorem ReadMessage_trace (m : Medium) :
    ∃ ops, (ReadMessage m).2.trace = m.trace ++ ops ∧ ∀ op ∈ ops, op.isRead = true := by
  obtain ⟨ops1, h1, h2⟩ := ReadAtLeast_trace m 24
  unfold ReadMessage
  generalize ReadAtLeast m 24 = r1 at h1
  obtain ⟨⟨header, e1⟩, m1⟩ := r1
  cases e1 with
  | some e => exact ⟨ops1, h1, h2⟩
  | none =>
    simp only at h1 ⊢
    obtain ⟨ops2, i1, i2⟩ := ReadAtLeast_trace m1 (Uint32 (List.drop 12 header))
    generalize ReadAtLeast m1 (Uint32 (List.drop 12 header)) = r2 at i1
    obtain ⟨⟨got, e2⟩, m2⟩ := r2
    have hall : ∀ op ∈ ops1 ++ ops2, op.isRead = true := by
      intro op hop
      rcases List.mem_append.mp hop with h | h
      · exact h2 op h
      · exact i2 op h
    cases e2 with
    | some e => exact ⟨ops1 ++ ops2, by simp only at i1 ⊢; rw [i1, h1, List.append_assoc], hall⟩
    | none => exact ⟨ops1 ++ ops2, by simp only at i1 ⊢; rw [i1, h1, List.append_assoc], hall⟩

/-- The calls `WriteMessage` makes on the transport are `Write` calls. -/
theorem WriteMessage_trace (m : Medium) (msg : Message) :
    ∃ ops, (WriteMessage m msg).2.trace = m.trace ++ ops ∧ ∀ op ∈ ops, op.isWrite = true := by
  obtain ⟨c1, c2⟩ := WriteMessage_cases m msg
  have t1 := m.Write_trace (messageHeader msg)
  have t2 := (m.Write (messageHeader msg)).2.Write_trace msg.Data
  cases h1 : (m.Write (messageHeader msg)).1.2 with
  | some e =>
    rw [c1 e h1]
    exact ⟨_, t1, by simp [Op.isWrite]⟩
  | none =>
    obtain ⟨c3, c4⟩ := c2 h1
    cases h2 : ((m.Write (messageHeader msg)).2.Write msg.Data).1.2 with
    | some e =>
      rw [c3 e h2]
      exact ⟨_, by simp only; rw [t2, t1, List.append_assoc], by simp [Op.isWrite]⟩
    | none =>
      rw [c4 h2]
      exact ⟨_, by simp only; rw [t2, t1, List.append_assoc], by simp [Op.isWrite]⟩

theorem deadlineCalls_append (xs ys : List Op) :
    deadlineCalls (xs ++ ys) = deadlineCalls xs ++ deadlineCalls ys := by
  induction xs with
  | nil => rfl
  | cons op xs ih => cases op <;> simp [deadlineCalls, ih]

theorem deadlineCalls_of_isRead (ops : List Op) (h : ∀ op ∈ ops, op.isRead = true) :
    deadlineCalls ops = [] := by
  induction ops with
  | nil => rfl
  | cons op ops ih =>
    have h1 := h op (List.mem_cons_self _ _)
    have h2 := ih (fun o ho => h o (List.mem_cons_of_mem _ ho))
    cases op <;> simp_all [deadlineCalls, Op.isRead]

theorem deadlineCalls_of_isWrite (ops : List Op) (h : ∀ op ∈ ops, op.isWrite = true) :
    deadlineCalls ops = [] := by
  induction ops with
  | nil => rfl
  | cons op ops ih =>
    have h1 := h op (List.mem_cons_self _ _)
    have h2 := ih (fun o ho => h o (List.mem_cons_of_mem _ ho))
    cases op <;> simp_all [deadlineCalls, Op.isWrite]

theorem Medium.SetWriteDeadline_trace (m : Medium) (t : Int) :
    (m.SetWriteDeadline t).2.trace =
      m.trace ++ [Op.SetWriteDeadline t (m.SetWriteDeadline t).1] := by
  unfold Medium.SetWriteDeadline
  cases m.writeDeadlines <;> rfl

theorem Medium.SetReadDeadline_trace (m : Medium) (t : Int) :
    (m.SetReadDeadline t).2.trace =
      m.trace ++ [Op.SetReadDeadline t (m.SetReadDeadline t).1] := by
  unfold Medium.SetReadDeadline
  cases m.readDeadlines <;> rfl

/-- C13. Non-positive timeout means no deadline: for `timeout <= 0`,
`WriteMessageWithTimeout` is `WriteMessage` (same result, same calls on the transport) and
`ReadMessageWithTimeout` is `ReadMessage`, and neither adds a deadline call to the trace.
For `timeout > 0` the first call made is `SetWriteDeadline(now + timeout)`, respectively
`SetReadDeadline(now + timeout)`, and every later call is a `Write`, respectively a
`Read`: the deadline is set exactly once and before any I/O. -/
theorem timeout_sets_deadline_once (medium : Medium) (msg : Message) (timeout now : Int) :
    (timeout ≤ 0 →
      WriteMessageWithTimeout medium msg timeout now = WriteMessage medium msg ∧
      ReadMessageWithTimeout medium timeout now = ReadMessage medium ∧
      deadlineCalls (WriteMessageWithTimeout medium msg timeout now).2.trace =
        deadlineCalls medium.trace ∧
      deadlineCalls (ReadMessageWithTimeout medium timeout now).2.trace =
        deadlineCalls medium.trace) ∧
    (0 < timeout →
      (∃ e ops, (WriteMessageWithTimeout medium msg timeout now).2.trace =
          medium.trace ++ Op.SetWriteDeadline (now + timeout) e :: ops ∧
        ∀ op ∈ ops, op.isWrite = true) ∧
      (∃ e ops, (ReadMessageWithTimeout medium timeout now).2.trace =
          medium.trace ++ Op.SetReadDeadline (now + timeout) e :: ops ∧
        ∀ op ∈ ops, op.isRead = true)) := by
  constructor
  · intro h
    have hw : WriteMessageWithTimeout medium msg timeout now = WriteMessage medium msg := by
      unfold WriteMessageWithTimeout
      rw [if_neg (by omega)]
    have hr : ReadMessageWithTimeout medium timeout now = ReadMessage medium := by
      unfold ReadMessageWithTimeout
      rw [if_neg (by omega)]
    refine ⟨hw, hr, ?_, ?_⟩
    · obtain ⟨ops, h1, h2⟩ := WriteMessage_trace medium msg
      rw [hw, h1, deadlineCalls_append, deadlineCalls_of_isWrite ops h2, List.append_nil]
    · obtain ⟨ops, h1, h2⟩ := ReadMessage_trace medium
      rw [hr, h1, deadlineCalls_append, deadlineCalls_of_isRead ops h2, List.append_nil]
  · intro h
    constructor
    · have t := medium.SetWriteDeadline_trace (now + timeout)
      unfold WriteMessageWithTimeout
      rw [if_pos h]
      generalize medium.SetWriteDeadline (now + timeout) = r at t
      obtain ⟨e, m1⟩ := r
      cases e with
      | some err => exact ⟨some err, [], t, by simp⟩
      | none =>
        obtain ⟨ops, h1, h2⟩ := WriteMessage_trace m1 msg
        refine ⟨none, ops, ?_, h2⟩
        simp only at t ⊢
        rw [h1, t, List.append_assoc]
        rfl
    · have t := medium.SetReadDeadline_trace (now + timeout)
      unfold ReadMessageWithTimeout
      rw [if_pos h]
      generalize medium.SetReadDeadline (now + timeout) = r at t
      obtain ⟨e, m1⟩ := r
      cases e with
      | some err => exact ⟨some err, [], t, by simp⟩
      | none =>
        obtain ⟨ops, h1, h2⟩ := ReadMessage_trace m1
        refine ⟨none, ops, ?_, h2⟩
        simp only at t ⊢
        rw [h1, t, List.append_assoc]
        rfl

/-- C13 at the timeouts `-5` and `5` with `now = 100`: without deadline the timed write is
the plain write; with it the trace starts with `SetWriteDeadline(105)`. -/
theorem timeout_sets_deadline_once_witness :
    WriteMessageWithTimeout (peerSends []) sampleMessage (-5) 100 =
      WriteMessage (peerSends []) sampleMessage ∧
    ∃ e ops, (WriteMessageWithTimeout (peerSends []) sampleMessage 5 100).2.trace =
      (peerSends []).trace ++ Op.SetWriteDeadline (100 + 5) e :: ops ∧
      ∀ op ∈ ops, op.isWrite = true :=
  ⟨((timeout_sets_deadline_once (peerSends []) sampleMessage (-5) 100).1 (by decide)).1,
   ((timeout_sets_deadline_once (peerSends []) sampleMessage 5 100).2 (by decide)).1⟩

/-- C14. Deadline-setting failure aborts before I/O: for `timeout > 0`, if
`SetWriteDeadline` returns an error, `WriteMessageWithTimeout` returns an error wrapping
it and its only call on the transport is that `SetWriteDeadline`; if `SetReadDeadline`
returns an error, `ReadMessageWithTimeout` returns the zero `Message` and an error wrapping
it, and its only call on the transport is that `SetReadDeadline`. -/
theorem deadline_failure_aborts (medium : Medium) (msg : Message) (timeout now : Int)
    (h : 0 < timeout) :
    (∀ err, (medium.SetWriteDeadline (now + timeout)).1 = some err →
      (WriteMessageWithTimeout medium msg timeout now).1 =
        some (Error.wrapError "Unable to set sending deadline: " err) ∧
      (WriteMessageWithTimeout medium msg timeout now).2.trace =
        medium.trace ++ [Op.SetWriteDeadline (now + timeout) (some err)] ∧
      writesOf (WriteMessageWithTimeout medium msg timeout now).2.trace =
        writesOf medium.trace) ∧
    (∀ err, (medium.SetReadDeadline (now + timeout)).1 = some err →
      (ReadMessageWithTimeout medium timeout now).1 =
        (⟨0, 0, 0, []⟩, some (Error.wrapError "Unable to set receival deadline: " err)) ∧
      (ReadMessageWithTimeout medium timeout now).2.trace =
        medium.trace ++ [Op.SetReadDeadline (now + timeout) (some err)] ∧
      readCount (ReadMessageWithTimeout medium timeout now).2.trace =
        readCount medium.trace) := by
  have readCount_snoc : ∀ (xs : List Op) (t : Int) (e : Option Error),
      readCount (xs ++ [Op.SetReadDeadline t e]) = readCount xs := by
    intro xs t e
    induction xs with
    | nil => rfl
    | cons op xs ih => cases op <;> simp [readCount, ih]
  constructor
  · intro err he
    have t := medium.SetWriteDeadline_trace (now + timeout)
    unfold WriteMessageWithTimeout
    rw [if_pos h]
    generalize medium.SetWriteDeadline (now + timeout) = r at t he
    obtain ⟨e, m1⟩ := r
    simp only at he
    subst he
    refine ⟨rfl, t, ?_⟩
    simp only at t ⊢
    rw [t, writesOf_append]
    simp [writesOf]
  · intro err he
    have t := medium.SetReadDeadline_trace (now + timeout)
    unfold ReadMessageWithTimeout
    rw [if_pos h]
    generalize medium.SetReadDeadline (now + timeout) = r at t he
    obtain ⟨e, m1⟩ := r
    simp only at he
    subst he
    refine ⟨rfl, t, ?_⟩
    simp only at t ⊢
    rw [t, readCount_snoc]

/-- C14 on `noDeadlines`, where setting a deadline reports "not supported": both timed
calls fail with that cause and make no further call. -/
theorem deadline_failure_aborts_witness :
    ((WriteMessageWithTimeout noDeadlines sampleMessage 5 100).1 =
        some (Error.wrapError "Unable to set sending deadline: "
          (Error.errorString "not supported")) ∧
      (WriteMessageWithTimeout noDeadlines sampleMessage 5 100).2.trace =
        noDeadlines.trace ++
          [Op.SetWriteDeadline (100 + 5) (some (Error.errorString "not supported"))]) ∧
    (ReadMessageWithTimeout noDeadlines 5 100).1 =
      (⟨0, 0, 0, []⟩, some (Error.wrapError "Unable to set receival deadline: "
        (Error.errorString "not supported"))) := by
  have hw := (deadline_failure_aborts noDeadlines sampleMessage 5 100 (by decide)).1 _ rfl
  have hr := (deadline_failure_aborts noDeadlines sampleMessage 5 100 (by decide)).2 _ rfl
  exact ⟨⟨hw.1, hw.2.1⟩, hr.1⟩

/-! ## Command codes -/

/-- C15. Command codes are ASCII tags: the 4-byte little-endian encoding of each of the
eight command constants is the ASCII text of its tag, and the eight codes are pairwise
distinct. -/
theorem MessageCommand_ascii_tags :
    littleEndianBytes 4 MessageCommand_Connect = asciiBytes "CNXN" ∧
    littleEndianBytes 4 MessageCommand_Auth = asciiBytes "AUTH" ∧
    littleEndianBytes 4 MessageCommand_Open = asciiBytes "OPEN" ∧
    littleEndianBytes 4 MessageCommand_Okay = asciiBytes "OKAY" ∧
    littleEndianBytes 4 MessageCommand_Write = asciiBytes "WRTE" ∧
    littleEndianBytes 4 MessageCommand_Close = asciiBytes "CLSE" ∧
    littleEndianBytes 4 MessageCommand_Sync = asciiBytes "SYNC" ∧
    littleEndianBytes 4 MessageCommand_StartTLS = asciiBytes "STLS" ∧
    [MessageCommand_Connect, MessageCommand_Auth, MessageCommand_Open, MessageCommand_Okay,
      MessageCommand_Write, MessageCommand_Close, MessageCommand_Sync,
      MessageCommand_StartTLS].Nodup := by
  decide

/-! ## Encoder sensitivity and totality -/

theorem pow_256_256 : (256 : Nat) ^ 256 = 2 ^ 2048 := (pow_mul 2 8 256).symm

theorem littleEndianBytes_injective (n x y : Nat) (hx : x < 256 ^ n) (hy : y < 256 ^ n)
    (h : littleEndianBytes n x = littleEndianBytes n y) : x = y := by
  have hv := congrArg littleEndianValue h
  rw [littleEndianValue_bytes, littleEndianValue_bytes, Nat.mod_eq_of_lt hx,
    Nat.mod_eq_of_lt hy] at hv
  exact hv

theorem littleEndianBytes_zero (n : Nat) : littleEndianBytes n 0 = List.replicate n 0 := by
  induction n with
  | zero => rfl
  | succ n ih => simp [littleEndianBytes, ih, List.replicate_succ]

/-- A value that fits in `k` bytes is encoded on `k + j` bytes by its `k`-byte encoding
followed by zeros. -/
theorem littleEndianBytes_zero_pad (k j x : Nat) (hx : x < 256 ^ k) :
    littleEndianBytes (k + j) x = littleEndianBytes k x ++ List.replicate j 0 := by
  induction k generalizing x with
  | zero =>
    have h0 : x = 0 := by simpa using hx
    subst h0
    simp [littleEndianBytes, littleEndianBytes_zero]
  | succ k ih =>
    have hdiv : x / 256 < 256 ^ k := by
      rw [Nat.div_lt_iff_lt_mul (by norm_num)]
      rw [pow_succ] at hx
      exact hx
    have e : k + 1 + j = (k + j) + 1 := by omega
    rw [e]
    simp only [littleEndianBytes, ih _ hdiv, List.cons_append]

/-- The record of an odd modulus below `2 ^ 2048` is a 520-byte part that depends on the
modulus only, whose bytes 0..3 hold the word count 64 and whose bytes 8..263 hold the
modulus, followed by the 4 bytes of the exponent. -/
theorem encodePublicKeyRecord_split (N : Nat) (hodd : N % 2 = 1) (hN : N < 2 ^ 2048) :
    ∃ pre, pre.length = 520 ∧ pre.take 4 = littleEndianBytes 4 64 ∧
      (pre.drop 8).take 256 = littleEndianBytes 256 N ∧
      ∀ E, encodePublicKeyRecord ⟨N, E⟩ =
        some (pre ++ littleEndianBytes 4 (E % 2 ^ 32).toNat) := by
  obtain ⟨_, hlt, _, _⟩ := n0inv_spec N hodd
  refine ⟨littleEndianBytes 4 64 ++ (littleEndianBytes 4 (n0inv N) ++
    (littleEndianBytes 256 N ++ littleEndianBytes 256 (2 ^ 4096 % N))), ?_, ?_, ?_, ?_⟩
  · simp only [List.length_append, littleEndianBytes_length]
  · rw [List.take_left' (littleEndianBytes_length 4 64)]
  · have h8 : (littleEndianBytes 4 64 ++ littleEndianBytes 4 (n0inv N)).length = 8 := by
      simp only [List.length_append, littleEndianBytes_length]
    rw [← List.append_assoc, List.drop_left' h8,
      List.take_left' (littleEndianBytes_length 256 N)]
  · intro E
    rw [encodePublicKeyRecord_eq ⟨N, E⟩ hlt (by simp only; omega) hN]
    simp only [List.append_assoc]

/-- C16 (amended). Encoder sensitivity: `encodePublicKey` is a function of `(N, E)` only;
for an odd `N < 2 ^ 2048` and two exponents the 524-byte records before the base64 step
agree on their first 520 bytes, so that changing `E` changes only the final 4 bytes, which
hold `E`; and for two distinct odd moduli below `2 ^ 2048` the 256-byte modulus fields
(record bytes 8..263) differ. -/
theorem encodePublicKey_sensitivity :
    (∀ pk1 pk2 : RsaPublicKey, pk1.N = pk2.N → pk1.E = pk2.E →
      encodePublicKey pk1 = encodePublicKey pk2) ∧
    (∀ (N : Nat) (E1 E2 : Int), N % 2 = 1 → N < 2 ^ 2048 →
      ∃ r1 r2, encodePublicKeyRecord ⟨N, E1⟩ = some r1 ∧
        encodePublicKeyRecord ⟨N, E2⟩ = some r2 ∧
        r1.length = 524 ∧ r2.length = 524 ∧ r1.take 520 = r2.take 520 ∧
        r1.drop 520 = littleEndianBytes 4 (E1 % 2 ^ 32).toNat ∧
        r2.drop 520 = littleEndianBytes 4 (E2 % 2 ^ 32).toNat) ∧
    (∀ (N1 N2 : Nat) (E1 E2 : Int), N1 % 2 = 1 → N1 < 2 ^ 2048 → N2 % 2 = 1 →
      N2 < 2 ^ 2048 → N1 ≠ N2 →
      ∃ r1 r2, encodePublicKeyRecord ⟨N1, E1⟩ = some r1 ∧
        encodePublicKeyRecord ⟨N2, E2⟩ = some r2 ∧
        (r1.drop 8).take 256 ≠ (r2.drop 8).take 256) := by
  refine ⟨?_, ?_, ?_⟩
  · intro pk1 pk2 hN hE
    cases pk1
    cases pk2
    simp only at hN hE
    rw [hN, hE]
  · intro N E1 E2 hodd hN
    obtain ⟨pre, hlen, _, _, hrec⟩ := encodePublicKeyRecord_split N hodd hN
    refine ⟨_, _, hrec E1, hrec E2, ?_, ?_, ?_, ?_, ?_⟩
    · rw [List.length_append, hlen, littleEndianBytes_length]
    · rw [List.length_append, hlen, littleEndianBytes_length]
    · rw [List.take_left' hlen, List.take_left' hlen]
    · rw [List.drop_left' hlen]
    · rw [List.drop_left' hlen]
  · intro N1 N2 E1 E2 hodd1 hN1 hodd2 hN2 hne
    obtain ⟨pre1, hlen1, _, hmod1, hrec1⟩ := encodePublicKeyRecord_split N1 hodd1 hN1
    obtain ⟨pre2, hlen2, _, hmod2, hrec2⟩ := encodePublicKeyRecord_split N2 hodd2 hN2
    refine ⟨_, _, hrec1 E1, hrec2 E2, ?_⟩
    have field : ∀ (pre tl : List Nat), pre.length = 520 →
        ((pre ++ tl).drop 8).take 256 = (pre.drop 8).take 256 := by
      intro pre tl hl
      rw [List.drop_append_of_le_length (by omega),
        List.take_append_of_le_length (by rw [List.length_drop]; omega)]
    rw [field pre1 _ hlen1, field pre2 _ hlen2, hmod1, hmod2]
    intro heq
    exact hne (littleEndianBytes_injective 256 N1 N2 (by rw [pow_256_256]; exact hN1)
      (by rw [pow_256_256]; exact hN2) heq)

/-- C16 (amended) at the modulus `3` with the exponents `3` and `65537`. -/
theorem encodePublicKey_sensitivity_witness :
    ∃ r1 r2, encodePublicKeyRecord ⟨3, 3⟩ = some r1 ∧
      encodePublicKeyRecord ⟨3, 65537⟩ = some r2 ∧
      r1.length = 524 ∧ r2.length = 524 ∧ r1.take 520 = r2.take 520 ∧
      r1.drop 520 = littleEndianBytes 4 ((3 : Int) % 2 ^ 32).toNat ∧
      r2.drop 520 = littleEndianBytes 4 ((65537 : Int) % 2 ^ 32).toNat :=
  encodePublicKey_sensitivity.2.1 3 3 65537 (by decide)
    (lt_of_lt_of_le (by decide : 3 < 2 ^ 2) (Nat.pow_le_pow_right (by decide) (by decide)))

/-- C16 as stated fails: for the modulus `3` the records of the exponents `3` and `65537`
have 524 bytes, not 356, agree on bytes 352..355, and differ after byte 356. -/
theorem encodePublicKey_sensitivity_counterexample :
    ∃ r1 r2, encodePublicKeyRecord ⟨3, 3⟩ = some r1 ∧
      encodePublicKeyRecord ⟨3, 65537⟩ = some r2 ∧
      r1.length = 524 ∧ r1.length ≠ 356 ∧
      (r1.drop 352).take 4 = (r2.drop 352).take 4 ∧ r1.drop 356 ≠ r2.drop 356 := by
  obtain ⟨pre, hlen, _, _, hrec⟩ := encodePublicKeyRecord_split 3 (by decide)
    (lt_of_lt_of_le (by decide : 3 < 2 ^ 2) (Nat.pow_le_pow_right (by decide) (by decide)))
  refine ⟨_, _, hrec 3, hrec 65537, ?_, ?_, ?_, ?_⟩
  · rw [List.length_append, hlen, littleEndianBytes_length]
  · rw [List.length_append, hlen, littleEndianBytes_length]
    decide
  · rw [List.drop_append_of_le_length (by omega), List.drop_append_of_le_length (by omega),
      List.take_append_of_le_length (by rw [List.length_drop]; omega),
      List.take_append_of_le_length (by rw [List.length_drop]; omega)]
  · intro h
    have h2 := congrArg (List.drop 164) h
    rw [List.drop_drop, List.drop_drop, List.drop_left' hlen, List.drop_left' hlen] at h2
    exact absurd h2 (by decide)

/-- C20. Encoder totality: for an odd modulus `N` (hence `N > 0`) and any exponent,
`encodePublicKey` returns if and only if `N < 2 ^ 2048`. Below that bound the inverse of
`N mod 2 ^ 32` exists, `n0inv` fits in 4 bytes, `N` and `2 ^ 4096 mod N` fit in 256 bytes,
the record starts with the word count 64 and holds `N` in bytes 8..263, padded with zeros
when `N` is shorter than 256 bytes. From `2 ^ 2048` on, the fixed-width fill of the
modulus field aborts and nothing is returned. -/
theorem encodePublicKey_total_iff (N : Nat) (E : Int) (hodd : N % 2 = 1) :
    ((∃ out, encodePublicKey ⟨N, E⟩ = some out) ↔ N < 2 ^ 2048) ∧
    (N < 2 ^ 2048 →
      (∃ x, x < 2 ^ 32 ∧ ((N % 2 ^ 32) * x) % 2 ^ 32 = 1) ∧
      n0inv N < 256 ^ 4 ∧ N < 256 ^ 256 ∧ 2 ^ 4096 % N < 256 ^ 256 ∧
      ∃ encoded, encodePublicKeyRecord ⟨N, E⟩ = some encoded ∧
        encoded.take 4 = littleEndianBytes 4 64 ∧
        (encoded.drop 8).take 256 = littleEndianBytes 256 N ∧
        ∀ k, k ≤ 256 → N < 256 ^ k →
          (encoded.drop 8).take 256 = littleEndianBytes k N ++ List.replicate (256 - k) 0) ∧
    (¬ N < 2 ^ 2048 → FillBytes N 256 = none ∧ encodePublicKey ⟨N, E⟩ = none) := by
  obtain ⟨_, hlt, _, x, hx1, hx2, _⟩ := n0inv_spec N hodd
  have hlarge : ¬ N < 2 ^ 2048 → FillBytes N 256 = none ∧ encodePublicKey ⟨N, E⟩ = none := by
    intro h
    constructor
    · unfold FillBytes
      rw [pow_256_256, if_neg h]
    · unfold encodePublicKey
      rw [encodePublicKeyRecord_large ⟨N, E⟩ h]
  refine ⟨⟨?_, ?_⟩, ?_, hlarge⟩
  · rintro ⟨out, hout⟩
    by_contra h
    rw [(hlarge h).2] at hout
    exact absurd hout (by simp)
  · intro h
    obtain ⟨_, out, _, _, _, h4, _⟩ := encodePublicKey_odd ⟨N, E⟩ hodd h
    exact ⟨out, h4⟩
  · intro h
    obtain ⟨pre, hlen, hcount, hmod, hrec⟩ := encodePublicKeyRecord_split N hodd h
    have hfield : ((pre ++ littleEndianBytes 4 (E % 2 ^ 32).toNat).drop 8).take 256 =
        littleEndianBytes 256 N := by
      rw [List.drop_append_of_le_length (by omega),
        List.take_append_of_le_length (by rw [List.length_drop]; omega), hmod]
    refine ⟨⟨x, hx1, hx2⟩, by simpa using hlt, by rw [pow_256_256]; exact h, ?_,
      _, hrec E, ?_, hfield, ?_⟩
    · rw [pow_256_256]
      exact lt_trans (Nat.mod_lt _ (by omega)) h
    · rw [List.take_append_of_le_length (by omega), hcount]
    · intro k hk hNk
      rw [hfield]
      have := littleEndianBytes_zero_pad k (256 - k) N hNk
      rwa [Nat.add_sub_cancel' hk] at this

/-- C20 at the 2-bit modulus `3`: the encoder returns, and the modulus field is the byte
`3` followed by 255 zero bytes. -/
theorem encodePublicKey_total_iff_witness :
    ∃ encoded, encodePublicKeyRecord ⟨3, 65537⟩ = some encoded ∧
      encoded.take 4 = littleEndianBytes 4 64 ∧
      (encoded.drop 8).take 256 = littleEndianBytes 256 3 ∧
      ∀ k, k ≤ 256 → 3 < 256 ^ k →
        (encoded.drop 8).take 256 = littleEndianBytes k 3 ++ List.replicate (256 - k) 0 :=
  ((encodePublicKey_total_iff 3 65537 (by decide)).2.1
    (lt_of_lt_of_le (by decide : 3 < 2 ^ 2)
      (Nat.pow_le_pow_right (by decide) (by decide)))).2.2.2.2

/-! ## The handshake: linearity and errors -/

theorem Medium.Read_trace_one (m : Medium) (k : Nat) :
    ∃ op, (m.Read k).2.trace = m.trace ++ [op] ∧ op.isRead = true := by
  cases hr : m.reads with
  | nil => exact ⟨Op.Read k [] (some Error.EOF), by simp [Medium.Read, hr], rfl⟩
  | cons ev rest =>
    by_cases h : ev.data.length ≤ k
    · exact ⟨Op.Read k ev.data ev.err, by simp [Medium.Read, hr, h], rfl⟩
    · exact ⟨Op.Read k (ev.data.take k) none, by simp [Medium.Read, hr, h], rfl⟩

/-- `io.ReadAtLeast` for a positive `min` makes at least one `Read` call, and only
`Read` calls. -/
theorem ReadAtLeast_trace_pos (m : Medium) (min : Nat) (hmin : 0 < min) :
    ∃ op ops, (ReadAtLeast m min).2.trace = m.trace ++ op :: ops ∧
      ∀ o ∈ op :: ops, o.isRead = true := by
  have hloop : ∃ op ops, (ReadAtLeastLoop (m.reads.length + 1) m min []).2.trace =
      m.trace ++ op :: ops ∧ ∀ o ∈ op :: ops, o.isRead = true := by
    simp only [ReadAtLeastLoop, List.length_nil, if_pos hmin]
    obtain ⟨op, h1, h2⟩ := m.Read_trace_one (min - 0)
    generalize m.Read (min - 0) = r at h1
    obtain ⟨⟨bs, e⟩, m'⟩ := r
    simp only at h1
    cases e with
    | none =>
      obtain ⟨ops, i1, i2⟩ := ReadAtLeastLoop_trace m.reads.length m' min ([] ++ bs)
      refine ⟨op, ops, ?_, ?_⟩
      · simp only
        rw [i1, h1, List.append_assoc]
        rfl
      · intro o ho
        rcases List.mem_cons.mp ho with h | h
        · rw [h]; exact h2
        · exact i2 o h
    | some e => exact ⟨op, [], h1, by simpa using h2⟩
  unfold ReadAtLeast
  generalize ReadAtLeastLoop (m.reads.length + 1) m min [] = r at hloop
  obtain ⟨⟨got, err⟩, m'⟩ := r
  simp only
  split_ifs <;> exact hloop

/-- The calls `ReadMessage` makes on the transport are one or more `Read` calls. -/
theorem ReadMessage_performs (m : Medium) (msg : Message) (err : Option Error) :
    ∃ seg, (ReadMessage m).2.trace = m.trace ++ seg ∧
      (MessageOp.read msg err).performs seg := by
  obtain ⟨op, ops1, h1, h2⟩ := ReadAtLeast_trace_pos m 24 (by decide)
  unfold ReadMessage
  generalize ReadAtLeast m 24 = r1 at h1
  obtain ⟨⟨header, e1⟩, m1⟩ := r1
  cases e1 with
  | some e => exact ⟨op :: ops1, h1, by simp, h2⟩
  | none =>
    simp only at h1 ⊢
    obtain ⟨ops2, i1, i2⟩ := ReadAtLeast_trace m1 (Uint32 (List.drop 12 header))
    generalize ReadAtLeast m1 (Uint32 (List.drop 12 header)) = r2 at i1
    obtain ⟨⟨got, e2⟩, m2⟩ := r2
    have hall : ∀ o ∈ (op :: ops1) ++ ops2, o.isRead = true := by
      intro o ho
      rcases List.mem_append.mp ho with h | h
      · exact h2 o h
      · exact i2 o h
    have htr : m2.trace = m.trace ++ ((op :: ops1) ++ ops2) := by
      simp only at i1
      rw [i1, h1, List.append_assoc]
    cases e2 with
    | some e => exact ⟨(op :: ops1) ++ ops2, htr, by simp, hall⟩
    | none => exact ⟨(op :: ops1) ++ ops2, htr, by simp, hall⟩

/-- The calls `WriteMessage` makes on the transport are one `Write` of the header, or a
`Write` of the header without error followed by one `Write` of the payload. -/
theorem WriteMessage_performs (m : Medium) (msg : Message) (err : Option Error) :
    ∃ seg, (WriteMessage m msg).2.trace = m.trace ++ seg ∧
      (MessageOp.write msg err).performs seg := by
  obtain ⟨c1, c2⟩ := WriteMessage_cases m msg
  have t1 := m.Write_trace (messageHeader msg)
  have t2 := (m.Write (messageHeader msg)).2.Write_trace msg.Data
  cases h1 : (m.Write (messageHeader msg)).1.2 with
  | some e =>
    rw [c1 e h1]
    exact ⟨_, t1, Or.inl ⟨_, _, rfl⟩⟩
  | none =>
    obtain ⟨c3, c4⟩ := c2 h1
    have htr : ((m.Write (messageHeader msg)).2.Write msg.Data).2.trace = m.trace ++
        [Op.Write (messageHeader msg) (m.Write (messageHeader msg)).1.1 none,
         Op.Write msg.Data ((m.Write (messageHeader msg)).2.Write msg.Data).1.1
           ((m.Write (messageHeader msg)).2.Write msg.Data).1.2] := by
      rw [t2, t1, h1, List.append_assoc]
      rfl
    cases h2 : ((m.Write (messageHeader msg)).2.Write msg.Data).1.2 with
    | some e =>
      rw [c3 e h2]
      exact ⟨_, htr, Or.inr ⟨_, _, _, rfl⟩⟩
    | none =>
      rw [c4 h2]
      exact ⟨_, htr, Or.inr ⟨_, _, _, rfl⟩⟩

/-- The trace of a transport on which a list of message-level operations was performed
grows by the calls of these operations, in order and with nothing in between. -/
theorem replay_trace (ops : List MessageOp) :
    ∀ (m final : Medium), replay m ops = some final →
      ∃ segs, List.Forall₂ MessageOp.performs ops segs ∧
        final.trace = m.trace ++ segs.flatten := by
  induction ops with
  | nil =>
    intro m final h
    simp only [replay, Option.some.injEq] at h
    subst h
    exact ⟨[], List.Forall₂.nil, by simp⟩
  | cons op rest ih =>
    intro m final h
    cases op with
    | write msg err =>
      simp only [replay] at h
      split_ifs at h
      obtain ⟨segs, f, t⟩ := ih _ final h
      obtain ⟨seg, s1, s2⟩ := WriteMessage_performs m msg err
      exact ⟨seg :: segs, List.Forall₂.cons s2 f,
        by rw [t, s1, List.flatten_cons, List.append_assoc]⟩
    | read msg err =>
      simp only [replay] at h
      split_ifs at h
      obtain ⟨segs, f, t⟩ := ih _ final h
      obtain ⟨seg, s1, s2⟩ := ReadMessage_performs m msg err
      exact ⟨seg :: segs, List.Forall₂.cons s2 f,
        by rw [t, s1, List.flatten_cons, List.append_assoc]⟩

/-- The log of `Handshake` is what happened on the transport: the transport it leaves
behind is the one obtained by performing the logged calls of `WriteMessage` and
`ReadMessage` on the assigned transport, in order, each returning what is logged. -/
theorem Handshake_replay (c : Client) (systemIdentityString : List Nat) (medium : Medium)
    (hmed : c.medium = some medium) :
    replay medium (c.Handshake systemIdentityString).ops =
      (c.Handshake systemIdentityString).medium ∧
    ∃ final, (c.Handshake systemIdentityString).medium = some final := by
  have key : ∀ r, r = c.Handshake systemIdentityString →
      replay medium r.ops = r.medium ∧ ∃ final, r.medium = some final := by
    intro r hr
    unfold Client.Handshake at hr
    simp only [] at hr
    repeat' split at hr
    all_goals subst hr
    all_goals simp_all [replay]
  exact key _ rfl

/-- C19. The handshake is strictly linear with no retries: for every client (transport
and key) and identity, the calls of `WriteMessage` and `ReadMessage` that `Handshake`
makes alternate, starting with the write of the `CONNECT` message, and are at most three
writes and three reads; an operation that returned an error is the last one; after a
first response that is not `AUTH`, or whose challenge `sign` rejects (length other than
20, or signing error), nothing follows the first read; and after a second response that is
not `AUTH` nothing follows the second read, so that a third write happens only when the
second response is `AUTH`. These operations are all that happens on the transport: the
transport left behind is the assigned one after exactly these calls, made in this order
with the logged results, and its trace is the old trace followed, operation by operation,
by one `Write` of the header and at most one `Write` of the payload for a write, and by
`Read` calls for a read. Without a transport nothing is done. -/
theorem Handshake_linear (c : Client) (systemIdentityString : List Nat) :
    (c.Handshake systemIdentityString).ops.map MessageOp.isWrite <+:
      [true, false, true, false, true, false] ∧
    (∀ op, (c.Handshake systemIdentityString).ops.head? = some op →
      ∃ err, op = MessageOp.write (NewMessage_Connect systemIdentityString) err) ∧
    failuresAreLast (c.Handshake systemIdentityString).ops ∧
    (∀ msg1, (c.Handshake systemIdentityString).ops[1]? = some (MessageOp.read msg1 none) →
      msg1.Command ≠ MessageCommand_Auth ∨ (sign msg1.Data c.privateKey).1.2 ≠ none →
      (c.Handshake systemIdentityString).ops.length = 2) ∧
    (∀ msg2, (c.Handshake systemIdentityString).ops[3]? = some (MessageOp.read msg2 none) →
      msg2.Command ≠ MessageCommand_Auth →
      (c.Handshake systemIdentityString).ops.length = 4) ∧
    (∀ medium, c.medium = some medium →
      replay medium (c.Handshake systemIdentityString).ops =
        (c.Handshake systemIdentityString).medium ∧
      ∃ final segs, (c.Handshake systemIdentityString).medium = some final ∧
        List.Forall₂ MessageOp.performs (c.Handshake systemIdentityString).ops segs ∧
        final.trace = medium.trace ++ segs.flatten) ∧
    (c.medium = none →
      (c.Handshake systemIdentityString).ops = [] ∧
      (c.Handshake systemIdentityString).medium = none) := by
  have key : ∀ r, r = c.Handshake systemIdentityString →
      r.ops.map MessageOp.isWrite <+: [true, false, true, false, true, false] ∧
      (∀ op, r.ops.head? = some op →
        ∃ err, op = MessageOp.write (NewMessage_Connect systemIdentityString) err) ∧
      failuresAreLast r.ops ∧
      (∀ msg1, r.ops[1]? = some (MessageOp.read msg1 none) →
        msg1.Command ≠ MessageCommand_Auth ∨ (sign msg1.Data c.privateKey).1.2 ≠ none →
        r.ops.length = 2) ∧
      (∀ msg2, r.ops[3]? = some (MessageOp.read msg2 none) →
        msg2.Command ≠ MessageCommand_Auth → r.ops.length = 4) := by
    intro r hr
    unfold Client.Handshake at hr
    simp only [] at hr
    repeat' split at hr
    all_goals subst hr
    all_goals simp_all [failuresAreLast, MessageOp.isWrite, MessageOp.err, List.IsPrefix]
  obtain ⟨k1, k2, k3, k4, k5⟩ := key _ rfl
  refine ⟨k1, k2, k3, k4, k5, ?_, ?_⟩
  · intro medium hmed
    obtain ⟨h1, final, h2⟩ := Handshake_replay c systemIdentityString medium hmed
    refine ⟨h1, final, ?_⟩
    rw [h2] at h1
    obtain ⟨segs, f, t⟩ := replay_trace _ medium final h1
    exact ⟨segs, h2, f, t⟩
  · intro hnone
    unfold Client.Handshake
    rw [hnone]
    exact ⟨rfl, rfl⟩

/-- C19 on `scenarioD`, whose peer answers `CONNECT` with `OPEN`: the handshake stops
after one write and one read; and on `scenarioBrokenPipe`, whose third `Write` fails: the
transport is left as after the logged calls. -/
theorem Handshake_linear_witness :
    (scenarioD.Handshake sampleIdentity).ops.length = 2 ∧
    replay brokenPipeMedium (scenarioBrokenPipe.Handshake sampleIdentity).ops =
      (scenarioBrokenPipe.Handshake sampleIdentity).medium :=
  ⟨(Handshake_linear scenarioD sampleIdentity).2.2.2.1 ⟨MessageCommand_Open, 0, 0, []⟩
    (by decide) (Or.inl (by decide)),
   ((Handshake_linear scenarioBrokenPipe sampleIdentity).2.2.2.2.2.1 _ rfl).1⟩

/-- What becomes of the error of a failed I/O step: when a `WriteMessage` or
`ReadMessage` call of `Handshake` returns the error `e`, `Handshake` returns no banner and
an error that wraps `e`, except when the call is the write of the `AUTH` message with the
signature; there the error returned is a plain `errors.New` text without cause. -/
theorem Handshake_io_error_cause (c : Client) (systemIdentityString : List Nat) :
    (∀ op ∈ (c.Handshake systemIdentityString).ops, ∀ e, op.err = some e →
      (∃ signature, op = MessageOp.write (NewMessage_Auth_Signature signature) (some e)) ∨
      ∃ err, (c.Handshake systemIdentityString).ret = some ([], some err) ∧
        err.Unwrap = some e) ∧
    (∀ signature e, MessageOp.write (NewMessage_Auth_Signature signature) (some e) ∈
        (c.Handshake systemIdentityString).ops →
      (c.Handshake systemIdentityString).ret = some ([], some (Error.errorString
        "Unable to send AUTH+signature request: %!w(MISSING)"))) := by
  have key : ∀ r, r = c.Handshake systemIdentityString →
      (∀ op ∈ r.ops, ∀ e, op.err = some e →
        (∃ signature, op = MessageOp.write (NewMessage_Auth_Signature signature) (some e)) ∨
        ∃ err, r.ret = some ([], some err) ∧ err.Unwrap = some e) ∧
      (∀ signature e, MessageOp.write (NewMessage_Auth_Signature signature) (some e) ∈ r.ops →
        r.ret = some ([], some (Error.errorString
          "Unable to send AUTH+signature request: %!w(MISSING)"))) := by
    intro r hr
    unfold Client.Handshake at hr
    simp only [] at hr
    repeat' split at hr
    all_goals subst hr
    all_goals simp_all [MessageOp.err, Error.Unwrap, NewMessage_Connect,
      NewMessage_Auth_Signature, NewMessage_Auth_PublicKey, MessageCommand_Connect,
      MessageCommand_Auth]
  exact key _ rfl

/-- C17 at its failing step: in `scenarioBrokenPipe` the write of the `AUTH` message with
the signature fails with a `WriteMessage` error that wraps "broken pipe"; `Handshake`
returns the text "Unable to send AUTH+signature request: %!w(MISSING)" as a plain error:
neither "broken pipe" nor the `WriteMessage` error is in its cause chain. -/
theorem Handshake_signature_send_failure_drops_cause :
    (scenarioBrokenPipe.Handshake sampleIdentity).ops =
      [MessageOp.write (NewMessage_Connect sampleIdentity) none,
       MessageOp.read ⟨MessageCommand_Auth, 1, 0, sampleChallenge⟩ none,
       MessageOp.write (NewMessage_Auth_Signature sampleChallenge.reverse)
         (some (Error.wrapError "Unable to write message header (24 bytes): "
           (Error.errorString "broken pipe")))] ∧
    (scenarioBrokenPipe.Handshake sampleIdentity).ret = some ([], some (Error.errorString
      "Unable to send AUTH+signature request: %!w(MISSING)")) ∧
    (Error.errorString "Unable to send AUTH+signature request: %!w(MISSING)").chain =
      [Error.errorString "Unable to send AUTH+signature request: %!w(MISSING)"] ∧
    (Error.errorString "Unable to send AUTH+signature request: %!w(MISSING)").Unwrap =
      none := by
  decide

/-- A first response that is read without error and is not `AUTH` makes `Handshake`
return the fixed error "Expected AUTH response to CONNECT request". -/
theorem Handshake_first_response_not_auth (c : Client) (medium : Medium)
    (systemIdentityString : List Nat) (msg1 : Message)
    (hmed : c.medium = some medium)
    (hw1 : (WriteMessage medium (NewMessage_Connect systemIdentityString)).1 = none)
    (hr1 : (ReadMessage (WriteMessage medium (NewMessage_Connect systemIdentityString)).2).1 =
      (msg1, none))
    (hne : msg1.Command ≠ MessageCommand_Auth) :
    (c.Handshake systemIdentityString).ret =
      some ([], some (Error.errorString "Expected AUTH response to CONNECT request")) := by
  have w1 : WriteMessage medium (NewMessage_Connect systemIdentityString) =
      (none, (WriteMessage medium (NewMessage_Connect systemIdentityString)).2) :=
    Prod.ext hw1 rfl
  have r1 : ReadMessage (WriteMessage medium (NewMessage_Connect systemIdentityString)).2 =
      ((msg1, none),
        (ReadMessage (WriteMessage medium (NewMessage_Connect systemIdentityString)).2).2) :=
    Prod.ext hr1 rfl
  unfold Client.Handshake
  rw [hmed]
  simp only
  rw [w1]
  simp only
  rw [r1]
  simp [hne]

/-- C18 (amended). The protocol-violation error of the first response names the expected
command only: when the first response to `CONNECT` is read without error and has a command
other than `AUTH`, `Handshake` returns the fixed error "Expected AUTH response to CONNECT
request", so that two first responses carrying different commands other than `AUTH`
yield the same error. -/
theorem Handshake_first_response_error_fixed (c c' : Client) (medium medium' : Medium)
    (ident ident' : List Nat) (msg1 msg1' : Message)
    (hmed : c.medium = some medium) (hmed' : c'.medium = some medium')
    (hw1 : (WriteMessage medium (NewMessage_Connect ident)).1 = none)
    (hw1' : (WriteMessage medium' (NewMessage_Connect ident')).1 = none)
    (hr1 : (ReadMessage (WriteMessage medium (NewMessage_Connect ident)).2).1 = (msg1, none))
    (hr1' : (ReadMessage (WriteMessage medium' (NewMessage_Connect ident')).2).1 =
      (msg1', none))
    (hne : msg1.Command ≠ MessageCommand_Auth)
    (hne' : msg1'.Command ≠ MessageCommand_Auth) :
    (c.Handshake ident).ret =
      some ([], some (Error.errorString "Expected AUTH response to CONNECT request")) ∧
    (c.Handshake ident).ret = (c'.Handshake ident').ret := by
  have h := Handshake_first_response_not_auth c medium ident msg1 hmed hw1 hr1 hne
  have h' := Handshake_first_response_not_auth c' medium' ident' msg1' hmed' hw1' hr1' hne'
  exact ⟨h, h.trans h'.symm⟩

/-- C18 (amended) on `scenarioD` and `scenarioClose`, whose peers answer `OPEN` and
`CLOSE`. -/
theorem Handshake_first_response_error_fixed_witness :
    (scenarioD.Handshake sampleIdentity).ret =
      some ([], some (Error.errorString "Expected AUTH response to CONNECT request")) ∧
    (scenarioD.Handshake sampleIdentity).ret = (scenarioClose.Handshake sampleIdentity).ret :=
  Handshake_first_response_error_fixed scenarioD scenarioClose
    (peerSends [⟨MessageCommand_Open, 0, 0, []⟩]) (peerSends [⟨MessageCommand_Close, 0, 0, []⟩])
    sampleIdentity sampleIdentity ⟨MessageCommand_Open, 0, 0, []⟩
    ⟨MessageCommand_Close, 0, 0, []⟩ rfl rfl (by decide) (by decide) (by decide) (by decide)
    (by decide) (by decide)

/-- C18 as stated fails: the first responses `OPEN` (in `scenarioD`) and `CLOSE` (in
`scenarioClose`) are read, and `Handshake` returns one and the same error for both, which
therefore does not name the command received. -/
theorem Handshake_first_response_error_counterexample :
    (scenarioD.Handshake sampleIdentity).ops[1]? =
      some (MessageOp.read ⟨MessageCommand_Open, 0, 0, []⟩ none) ∧
    (scenarioClose.Handshake sampleIdentity).ops[1]? =
      some (MessageOp.read ⟨MessageCommand_Close, 0, 0, []⟩ none) ∧
    (scenarioD.Handshake sampleIdentity).ret =
      some ([], some (Error.errorString "Expected AUTH response to CONNECT request")) ∧
    (scenarioClose.Handshake sampleIdentity).ret =
      some ([], some (Error.errorString "Expected AUTH response to CONNECT request")) := by
  decide

end adb
